import Mathlib

/-!
Shallow embedding of the `sensen` real-time card-battle simulation core
(`src/game/*`: deck.rs, cost.rs, status.rs, effect.rs, health.rs,
input_buffer.rs, cards/mod.rs, rules.rs, input.rs).

Conventions of the embedding:
* `f32` values are modelled as `ℚ` (the game's arithmetic on them is
  exact addition/subtraction/multiplication by constants, min/max).
* `u64` values are modelled as `ℕ` reduced modulo `2 ^ 64` where the
  source relies on wrapping arithmetic.
* Bevy message writers become explicitly accumulated lists, in emission
  order; Bevy `Commands` (deferred component inserts) become explicit
  lists of pending inserts applied at the end of the emitting system.
* The two player entities are identified by `Bool`
  (`false` = local player, `true` = opponent).
-/

namespace Sensen

/-- Card identifier (`CardId` in cards/mod.rs is a `#[repr(u32)]` enum;
we use its numeric codes: Strike = 1, ..., Barricade = 208, Dazed = 300, ...). -/
abbrev CardId := ℕ

/-- Card type classification (cards/mod.rs `CardType`). -/
inductive CardType where
  | Attack
  | Skill
  | Power
  | Status
deriving DecidableEq, Repr

/-- What a card does when played (cards/mod.rs `CardEffect`). -/
inductive CardEffect where
  | Damage (amount : ℚ)
  | MultiHit (damage : ℚ) (hits : ℕ)
  | Heal (amount : ℚ)
  | Draw (count : ℕ)
  | Block (amount : ℚ)
  | Thorns (amount : ℚ)
  | Strength (amount : ℚ)
  | Vulnerable (duration : ℚ)
  | SelfVulnerable (duration : ℚ)
  | Weak (duration : ℚ)
  | Accelerate (bonus_rate : ℚ) (duration : ℚ)
  | BodySlam
  | Bloodletting (amount : ℚ)
  | DoubleBlock
  | DoubleStrength
  | Rage (block_per_attack : ℚ)
  | Metallicize (block_per_second : ℚ)
  | Combust (self_damage : ℚ) (enemy_damage : ℚ)
  | DemonForm (strength_per_second : ℚ)
  | Barricade
  | Juggernaut (damage_on_block : ℚ)
  | DarkEmbrace (draw : ℕ)
  | Evolve (draw : ℕ)
  | FeelNoPain (block : ℚ)
  | FireBreathing (damage : ℚ)
  | Rupture (strength : ℚ)
  | Corruption
  | Brutality (self_damage : ℚ) (draw : ℕ) (interval : ℚ)
  | Exhaust
  | AddStatus (card_id : CardId)
  | Combo (effects : List CardEffect)

/-- Mirrors `matches!(card_def.effect, CardEffect::Exhaust)` in deck.rs. -/
def CardEffect.isExhaust : CardEffect → Bool
  | .Exhaust => true
  | _ => false

/-- Card definition (cards/mod.rs `CardDef`; the presentation-only fields
`name`, `description`, `rarity` carry no simulation logic and are omitted). -/
structure CardDef where
  id : CardId
  cost : ℚ
  card_type : CardType
  effect : CardEffect

/-- Registry of all card definitions (cards/mod.rs `CardRegistry`). -/
abbrev CardRegistry := List CardDef

/-- Mirrors `CardRegistry::get`: `self.cards.iter().find(|c| c.id == id)`. -/
def registryGet (reg : CardRegistry) (id : CardId) : Option CardDef :=
  reg.find? (fun c => c.id == id)

/-! ## Constants (rules.rs) -/

def INITIAL_HP : ℚ := 1000
def DRAW_COST : ℚ := 2
def DRAW_COUNT : ℕ := 3
def MAX_HAND_SIZE : ℕ := 10
def BLOCK_DECAY_RATE : ℚ := 20

/-! ## Deterministic RNG and Deck (deck.rs) -/

def DEFAULT_DECK_SEED : ℕ := 0x23d344d36f2a7c15

/-- One step of the 64-bit LCG
(`state * 6364136223846793005 + 1`, wrapping). -/
def nextRng (state : ℕ) : ℕ :=
  (state * 6364136223846793005 + 1) % 2 ^ 64

/-- The player's deck of cards (deck.rs `Deck`). -/
structure Deck where
  cards : List CardId
  rng_state : ℕ
deriving DecidableEq, Repr

/-- Mirrors `Deck::seed_for_handle`. -/
def Deck.seed_for_handle (match_seed : ℕ) (handle : ℕ) : ℕ :=
  Nat.xor (Nat.xor DEFAULT_DECK_SEED match_seed)
    ((handle * 0x9e3779b97f4a7c15) % 2 ^ 64)

/-- Swap of two list positions (the effect of `self.cards.swap(i, j)`). -/
def listSwap (l : List CardId) (i j : ℕ) : List CardId :=
  match l.get? i, l.get? j with
  | some a, some b => (l.set i b).set j a
  | _, _ => l

/-- The effect of `Vec::swap_remove(i)` on the element list: the last
element is moved into slot `i` and the vector shrinks by one. -/
def swapRemove (l : List CardId) (i : ℕ) : List CardId :=
  match l.getLast? with
  | none => l
  | some last => (l.set i last).dropLast

/-- The Fisher–Yates loop of `Deck::shuffle`:
`for i in (1..len).rev() { let j = next_rng() % (i+1); swap(i, j) }`.
The recursion argument is the current loop index `i`. -/
def shuffleGo : List CardId → ℕ → ℕ → List CardId × ℕ
  | cards, rng, 0 => (cards, rng)
  | cards, rng, i + 1 =>
      let rng' := nextRng rng
      let j := rng' % (i + 2)
      shuffleGo (listSwap cards (i + 1) j) rng' i

/-- Mirrors `Deck::shuffle`. -/
def Deck.shuffle (d : Deck) : Deck :=
  if d.cards.length < 2 then d
  else
    let r := shuffleGo d.cards d.rng_state (d.cards.length - 1)
    ⟨r.1, r.2⟩

/-- Mirrors `Deck::draw`: uniform random extraction with swap-remove. -/
def Deck.draw (d : Deck) : Option (CardId × Deck) :=
  if d.cards.isEmpty then none
  else
    let r := nextRng d.rng_state
    let index := r % d.cards.length
    some (d.cards.getD index 0, ⟨swapRemove d.cards index, r⟩)

/-- Mirrors `Deck::add_cards` (`self.cards.extend(cards)`). -/
def Deck.add_cards (d : Deck) (cs : List CardId) : Deck :=
  ⟨d.cards ++ cs, d.rng_state⟩

/-! ## Multiset-conservation lemmas for the deck primitives -/

/-- Setting one position exchanges the old element for the new one,
stated additively over multisets. -/
theorem coe_set_add_getElem (l : List CardId) (i : ℕ) (x : CardId) (h : i < l.length) :
    (↑(l.set i x) : Multiset CardId) + {l[i]} = (↑l : Multiset CardId) + {x} := by
  induction l generalizing i with
  | nil => simp at h
  | cons a t ih =>
      cases i with
      | zero =>
          simp only [List.set, List.getElem_cons_zero, ← Multiset.cons_coe]
          rw [add_comm, Multiset.singleton_add, add_comm, Multiset.singleton_add]
          exact Multiset.cons_swap a x (↑t)
      | succ n =>
          have hn : n < t.length := by simpa using h
          have ih' := ih n hn
          simp only [List.set, List.getElem_cons_succ, ← Multiset.cons_coe,
            Multiset.cons_add]
          rw [ih']

theorem listSwap_length (l : List CardId) (i j : ℕ) :
    (listSwap l i j).length = l.length := by
  unfold listSwap
  cases hi : l.get? i <;> cases hj : l.get? j <;> simp

theorem listSwap_coe (l : List CardId) (i j : ℕ) (hi : i < l.length)
    (hj : j < l.length) :
    (↑(listSwap l i j) : Multiset CardId) = ↑l := by
  have hgi : l.get? i = some l[i] := by simp [List.get?_eq_getElem?, hi]
  have hgj : l.get? j = some l[j] := by simp [List.get?_eq_getElem?, hj]
  have hlen : (l.set i l[j]).length = l.length := by simp
  have hj' : j < (l.set i l[j]).length := by rw [hlen]; exact hj
  have e2 : (↑(l.set i l[j]) : Multiset CardId) + {l[i]} = ↑l + {l[j]} :=
    coe_set_add_getElem l i l[j] hi
  have hb : (l.set i l[j])[j] = l[j] := by
    by_cases hij : i = j
    · subst hij; simp
    · rw [List.getElem_set_ne (by omega)]
  have e1 : (↑((l.set i l[j]).set j l[i]) : Multiset CardId) + {(l.set i l[j])[j]}
      = ↑(l.set i l[j]) + {l[i]} :=
    coe_set_add_getElem (l.set i l[j]) j l[i] hj'
  rw [hb] at e1
  unfold listSwap
  rw [hgi, hgj]
  have : (↑((l.set i l[j]).set j l[i]) : Multiset CardId) + {l[j]} = ↑l + {l[j]} := by
    rw [e1, e2]
  exact add_right_cancel this

theorem swapRemove_length (l : List CardId) (i : ℕ) (h : i < l.length) :
    (swapRemove l i).length = l.length - 1 := by
  have hne : l ≠ [] := List.ne_nil_of_length_pos (by omega)
  unfold swapRemove
  rw [List.getLast?_eq_getLast l hne]
  simp

theorem swapRemove_concat_coe (l' : List CardId) (b c : CardId) (i : ℕ)
    (hc : (l' ++ [b]).get? i = some c) :
    (↑(swapRemove (l' ++ [b]) i) : Multiset CardId) + {c} = ↑(l' ++ [b]) := by
  have hlt : i < (l' ++ [b]).length := by
    by_contra hge
    rw [List.get?_eq_none.mpr (by omega)] at hc
    exact Option.noConfusion hc
  have hcval : c = (l' ++ [b])[i] := by
    rw [List.get?_eq_getElem?, List.getElem?_eq_getElem hlt] at hc
    exact (Option.some.injEq _ _ ▸ hc).symm
  have hlen : i < l'.length + 1 := by simpa using hlt
  unfold swapRemove
  rw [List.getLast?_concat]
  dsimp only
  by_cases hi : i < l'.length
  · rw [List.set_append_left _ _ hi, List.dropLast_concat]
    have hcv : c = l'[i] := by
      rw [hcval]
      exact List.getElem_append_left hi
    rw [hcv, ← Multiset.coe_add, Multiset.coe_singleton]
    exact coe_set_add_getElem l' i b hi
  · have hieq : i = l'.length := by omega
    rw [List.set_append_right _ _ (by omega)]
    have hset1 : [b].set (i - l'.length) b = [b] := by
      rw [hieq]
      simp
    rw [hset1, List.dropLast_concat]
    have hcv : c = b := by
      rw [hcval]
      exact List.getElem_concat_length l' b i hieq _
    rw [hcv, ← Multiset.coe_add, Multiset.coe_singleton]

theorem swapRemove_coe (l : List CardId) (i : ℕ) (c : CardId)
    (hc : l.get? i = some c) :
    (↑(swapRemove l i) : Multiset CardId) + {c} = ↑l := by
  have hne : l ≠ [] := by
    intro h
    subst h
    simp at hc
  have hd := List.dropLast_concat_getLast hne
  rw [← hd] at hc ⊢
  exact swapRemove_concat_coe _ _ _ _ hc

theorem shuffleGo_length (cards : List CardId) (rng i : ℕ) :
    (shuffleGo cards rng i).1.length = cards.length := by
  induction i generalizing cards rng with
  | zero => simp [shuffleGo]
  | succ n ih => simp [shuffleGo, ih, listSwap_length]

theorem shuffleGo_coe (cards : List CardId) (rng i : ℕ) (h : i < cards.length) :
    (↑(shuffleGo cards rng i).1 : Multiset CardId) = ↑cards := by
  induction i generalizing cards rng with
  | zero => simp [shuffleGo]
  | succ n ih =>
      have hswap : (listSwap cards (n + 1) (nextRng rng % (n + 2))).length
          = cards.length := listSwap_length _ _ _
      have hrec := ih (listSwap cards (n + 1) (nextRng rng % (n + 2))) (nextRng rng)
        (by rw [hswap]; omega)
      simp only [shuffleGo]
      rw [hrec]
      exact listSwap_coe cards (n + 1) (nextRng rng % (n + 2)) h
        (Nat.lt_of_lt_of_le (Nat.mod_lt _ (by omega)) (by omega))

theorem Deck.shuffle_coe (d : Deck) :
    (↑d.shuffle.cards : Multiset CardId) = ↑d.cards := by
  unfold Deck.shuffle
  by_cases hlt : d.cards.length < 2
  · simp [hlt]
  · simp only [hlt, if_false]
    exact shuffleGo_coe d.cards d.rng_state (d.cards.length - 1) (by omega)

theorem Deck.shuffle_length (d : Deck) :
    d.shuffle.cards.length = d.cards.length := by
  unfold Deck.shuffle
  by_cases hlt : d.cards.length < 2
  · simp [hlt]
  · simp only [hlt, if_false]
    exact shuffleGo_length d.cards d.rng_state (d.cards.length - 1)

theorem Deck.draw_coe (d : Deck) (c : CardId) (d' : Deck)
    (h : d.draw = some (c, d')) :
    (↑d'.cards : Multiset CardId) + {c} = ↑d.cards := by
  unfold Deck.draw at h
  by_cases he : d.cards.isEmpty
  · simp [he] at h
  · rw [if_neg he, Option.some.injEq, Prod.mk.injEq] at h
    obtain ⟨hc, hd⟩ := h
    have hlen : 0 < d.cards.length := by
      rw [List.length_pos]
      intro hnil
      rw [hnil] at he
      simp at he
    have hidx : nextRng d.rng_state % d.cards.length < d.cards.length :=
      Nat.mod_lt _ hlen
    have hsome : d.cards.get? (nextRng d.rng_state % d.cards.length)
        = some (d.cards.getD (nextRng d.rng_state % d.cards.length) 0) := by
      rw [List.getD_eq_getElem d.cards 0 hidx, List.get?_eq_getElem?,
        List.getElem?_eq_getElem hidx]
    subst hc hd
    exact swapRemove_coe d.cards _ _ hsome

theorem Deck.draw_length (d : Deck) (c : CardId) (d' : Deck)
    (h : d.draw = some (c, d')) :
    d'.cards.length = d.cards.length - 1 := by
  unfold Deck.draw at h
  by_cases he : d.cards.isEmpty
  · simp [he] at h
  · rw [if_neg he, Option.some.injEq, Prod.mk.injEq] at h
    obtain ⟨hc, hd⟩ := h
    have hlen : 0 < d.cards.length := by
      rw [List.length_pos]
      intro hnil
      rw [hnil] at he
      simp at he
    subst hd
    exact swapRemove_length d.cards _ (Nat.mod_lt _ hlen)

theorem Deck.draw_isSome (d : Deck) (h : ¬ d.cards.isEmpty) :
    ∃ c d', d.draw = some (c, d') := by
  unfold Deck.draw
  simp [h]

/-! ## Components (cost.rs, health.rs, status.rs) -/

/-- Player's accumulated cost resource (cost.rs `Cost`). -/
structure Cost where
  current : ℚ
  rate : ℚ
deriving DecidableEq, Repr

def Cost.new (rate : ℚ) : Cost := ⟨0, rate⟩

/-- Mirrors `Cost::try_spend`; returns the success flag and updated cost. -/
def Cost.try_spend (c : Cost) (amount : ℚ) : Bool × Cost :=
  if amount ≤ c.current then (true, ⟨c.current - amount, c.rate⟩) else (false, c)

/-- Temporary cost rate bonus (cost.rs `Acceleration`). -/
structure Acceleration where
  bonus_rate : ℚ
  remaining : ℚ
deriving DecidableEq, Repr

def Acceleration.new (bonus_rate duration : ℚ) : Acceleration :=
  ⟨bonus_rate, max duration 0⟩

def Acceleration.extend (a : Acceleration) (bonus_rate duration : ℚ) : Acceleration :=
  ⟨a.bonus_rate + bonus_rate, max a.remaining duration⟩

/-- Health component (health.rs `Health`). -/
structure Health where
  current : ℚ
  max : ℚ
deriving DecidableEq, Repr

def Health.new (m : ℚ) : Health := ⟨m, m⟩

def Health.take_damage (h : Health) (amount : ℚ) : Health :=
  ⟨Max.max (h.current - amount) 0, h.max⟩

def Health.heal (h : Health) (amount : ℚ) : Health :=
  ⟨min (h.current + amount) h.max, h.max⟩

def Health.is_dead (h : Health) : Bool := h.current ≤ 0

/-- Damage-absorbing shield (health.rs `Block`). -/
structure Block where
  current : ℚ
deriving DecidableEq, Repr

def Block.gain (b : Block) (amount : ℚ) : Block :=
  ⟨max (b.current + amount) 0⟩

/-- Reflecting damage component (health.rs `Thorns`). -/
structure Thorns where
  damage : ℚ
deriving DecidableEq, Repr

def Thorns.gain (t : Thorns) (amount : ℚ) : Thorns :=
  ⟨max (t.damage + amount) 0⟩

/-- Strength accumulator (status.rs `Strength`). -/
structure Strength where
  amount : ℚ
deriving DecidableEq, Repr

def Strength.gain (s : Strength) (amount : ℚ) : Strength :=
  ⟨s.amount + amount⟩

/-- Vulnerable debuff, duration in seconds (status.rs `Vulnerable`). -/
structure Vulnerable where
  duration : ℚ
deriving DecidableEq, Repr

def Vulnerable.apply (v : Vulnerable) (duration : ℚ) : Vulnerable :=
  ⟨max (v.duration + duration) 0⟩

def Vulnerable.is_active (v : Vulnerable) : Bool := 0 < v.duration

def Vulnerable.modify_incoming_damage (v : Vulnerable) (damage : ℚ) : ℚ :=
  if v.is_active then damage * (3 / 2) else damage

/-- Weak debuff, duration in seconds (status.rs `Weak`). -/
structure Weak where
  duration : ℚ
deriving DecidableEq, Repr

def Weak.apply (w : Weak) (duration : ℚ) : Weak :=
  ⟨max (w.duration + duration) 0⟩

def Weak.is_active (w : Weak) : Bool := 0 < w.duration

def Weak.modify_outgoing_damage (w : Weak) (damage : ℚ) : ℚ :=
  if w.is_active then damage * (3 / 4) else damage

/-- Rage power (status.rs `RageEffect`). -/
structure RageEffect where
  block_per_attack : ℚ
  duration : ℚ
deriving DecidableEq, Repr

def RageEffect.new (block_per_attack duration : ℚ) : RageEffect :=
  ⟨block_per_attack, duration⟩

def RageEffect.is_active (r : RageEffect) : Bool := 0 < r.duration

structure MetallicizeEffect where
  block_per_second : ℚ
deriving DecidableEq, Repr

structure DemonFormEffect where
  strength_per_second : ℚ
  accumulated : ℚ
deriving DecidableEq, Repr

def DemonFormEffect.new (strength_per_second : ℚ) : DemonFormEffect :=
  ⟨strength_per_second, 0⟩

structure JuggernautEffect where
  damage_on_block : ℚ
deriving DecidableEq, Repr

structure CombustEffect where
  self_damage : ℚ
  enemy_damage : ℚ
  timer : ℚ
deriving DecidableEq, Repr

def CombustEffect.new (self_damage enemy_damage : ℚ) : CombustEffect :=
  ⟨self_damage, enemy_damage, 0⟩

structure DarkEmbraceEffect where
  draw_on_exhaust : ℕ
deriving DecidableEq, Repr

structure EvolveEffect where
  draw_on_status : ℕ
deriving DecidableEq, Repr

structure FeelNoPainEffect where
  block_on_exhaust : ℚ
deriving DecidableEq, Repr

structure FireBreathingEffect where
  damage_on_status_draw : ℚ
deriving DecidableEq, Repr

structure RuptureEffect where
  strength_on_self_damage : ℚ
deriving DecidableEq, Repr

structure BrutalityEffect where
  self_damage : ℚ
  draw : ℕ
  interval : ℚ
  timer : ℚ
deriving DecidableEq, Repr

def BrutalityEffect.new (self_damage : ℚ) (draw : ℕ) (interval : ℚ) :
    BrutalityEffect :=
  ⟨self_damage, draw, interval, 0⟩

/-! ## Messages and entities

The two player entities are identified by `Bool`: `false` is the local
player, `true` the opponent; `opponent_entity` is negation (there are
exactly two players in a match). -/

abbrev Ent := Bool

def opponent_entity (e : Ent) : Option Ent := some (!e)

/-- Damage kind discriminator. health.rs declares the attack-kind variant
under the name `Direct`; the callers in effect.rs/deck.rs/status.rs use the
names `Attack` and `Power` for the same role split, which we adopt. -/
inductive DamageKind where
  | Attack
  | Thorns
  | Power
deriving DecidableEq, Repr

structure DamageMessage where
  target : Ent
  amount : ℚ
  source : Option Ent
  kind : DamageKind
deriving DecidableEq, Repr

structure ThornsDamageMessage where
  target : Ent
  amount : ℚ
  source : Ent
deriving DecidableEq, Repr

/-! ## Cost clock systems (cost.rs) -/

/-- Mirrors `accumulate_cost_delta` for one `Cost` component. -/
def accumulate_cost_delta (delta : ℚ) (c : Cost) : Cost :=
  ⟨c.current + c.rate * delta, c.rate⟩

/-- Mirrors `tick_acceleration_delta` for one player: ticks `remaining`
down and, once it reaches `≤ 0`, subtracts the bonus back out of the rate
(floored at 0) and removes the component. -/
def tick_acceleration_delta (delta : ℚ) (c : Cost) (a : Acceleration) :
    Cost × Option Acceleration :=
  let rem := a.remaining - delta
  if rem ≤ 0 then
    (⟨c.current, max (c.rate - a.bonus_rate) 0⟩, none)
  else
    (c, some ⟨a.bonus_rate, rem⟩)

/-! ## Status/power ticking (status.rs) -/

/-- Duration decay shared by Vulnerable/Weak/Rage:
`if dur > 0 { dur = (dur - delta).max(0) }`. -/
def decayDuration (delta dur : ℚ) : ℚ :=
  if 0 < dur then max (dur - delta) 0 else dur

/-- Demon Form accumulation: flushes only whole-number strength increments,
carrying the fractional remainder. -/
def tickDemonForm (delta : ℚ) (d : DemonFormEffect) (s : Strength) :
    DemonFormEffect × Strength :=
  let acc := d.accumulated + d.strength_per_second * delta
  if 1 ≤ acc then
    let gain : ℚ := ((⌊acc⌋ : ℤ) : ℚ)
    (⟨d.strength_per_second, acc - gain⟩, s.gain gain)
  else
    (⟨d.strength_per_second, acc⟩, s)

/-- The `while timer >= period` drain loop of Combust/Brutality, written
with an internal fuel that the spec lemma below shows is never exhausted
for a positive period. Returns (number of emitted batches, final timer). -/
def drainTimerFuel : ℕ → ℚ → ℚ → ℕ × ℚ
  | 0, timer, _ => (0, timer)
  | fuel + 1, timer, period =>
      if period ≤ timer then
        let r := drainTimerFuel fuel (timer - period) period
        (r.1 + 1, r.2)
      else (0, timer)

def drainTimer (timer period : ℚ) : ℕ × ℚ :=
  drainTimerFuel ((⌊timer / period⌋).toNat + 1) timer period

theorem drainTimerFuel_spec (p : ℚ) (hp : 0 < p) :
    ∀ (fuel : ℕ) (t : ℚ), 0 ≤ t → t / p < (fuel : ℚ) →
      drainTimerFuel fuel t p = (⌊t / p⌋₊, t - p * (⌊t / p⌋₊ : ℚ)) := by
  intro fuel
  induction fuel with
  | zero =>
      intro t ht hlt
      have h0 : 0 ≤ t / p := div_nonneg ht hp.le
      simp only [Nat.cast_zero] at hlt
      linarith
  | succ n ih =>
      intro t ht hlt
      by_cases hpt : p ≤ t
      · have ht' : 0 ≤ t - p := by linarith
        have hdiv : (t - p) / p = t / p - 1 := by
          field_simp
        have hlt' : (t - p) / p < (n : ℚ) := by
          rw [hdiv]
          push_cast at hlt ⊢
          linarith
        have hone : 1 ≤ t / p := (one_le_div hp).mpr hpt
        have hfl : 1 ≤ ⌊t / p⌋₊ := (Nat.one_le_floor_iff _).mpr hone
        have hrec := ih (t - p) ht' hlt'
        have hfl_sub : ⌊(t - p) / p⌋₊ = ⌊t / p⌋₊ - 1 := by
          rw [hdiv]
          rw [show (t / p - 1) = t / p - (1 : ℕ) by push_cast; ring]
          rw [Nat.floor_sub_nat]
        simp only [drainTimerFuel, if_pos hpt, hrec, hfl_sub]
        rw [Prod.mk.injEq]
        refine ⟨by omega, ?_⟩
        · have : ((⌊t / p⌋₊ - 1 : ℕ) : ℚ) = (⌊t / p⌋₊ : ℚ) - 1 := by
            push_cast [hfl]
            ring
          rw [this]
          ring
      · have hlt1 : t / p < 1 := (div_lt_one hp).mpr (by linarith)
        have hfl0 : ⌊t / p⌋₊ = 0 := Nat.floor_eq_zero.mpr hlt1
        simp [drainTimerFuel, hpt, hfl0]

/-- The drain loop emits exactly `⌊t / p⌋₊` batches and leaves the timer at
the remainder, for a positive period and a nonnegative starting timer. -/
theorem drainTimer_spec (t p : ℚ) (hp : 0 < p) (ht : 0 ≤ t) :
    drainTimer t p = (⌊t / p⌋₊, t - p * (⌊t / p⌋₊ : ℚ)) := by
  unfold drainTimer
  apply drainTimerFuel_spec p hp _ t ht
  have h1 : t / p < (⌊t / p⌋ : ℚ) + 1 := Int.lt_floor_add_one _
  have h2 : 0 ≤ ⌊t / p⌋ := Int.floor_nonneg.mpr (div_nonneg ht hp.le)
  have h3 : ((⌊t / p⌋.toNat : ℕ) : ℚ) = ((⌊t / p⌋ : ℤ) : ℚ) := by
    rw [← Int.cast_natCast, Int.toNat_of_nonneg h2]
  push_cast
  rw [h3]
  linarith

/-- Combust ticking: `timer += delta; while timer >= 1.0 { emit; timer -= 1 }`.
Returns the updated component and the number of emitted batches. -/
def tickCombust (delta : ℚ) (c : CombustEffect) : CombustEffect × ℕ :=
  let r := drainTimer (c.timer + delta) 1
  (⟨c.self_damage, c.enemy_damage, r.2⟩, r.1)

/-- Brutality ticking, guarded by `interval > 0` exactly as in the source
(`if brutality.interval <= 0.0 { continue; }`). -/
def tickBrutality (delta : ℚ) (b : BrutalityEffect) : BrutalityEffect × ℕ :=
  if b.interval ≤ 0 then (b, 0)
  else
    let r := drainTimer (b.timer + delta) b.interval
    (⟨b.self_damage, b.draw, b.interval, r.2⟩, r.1)

/-- Block decay (status.rs `tick_block_decay_delta`); the query excludes
players with a Barricade power. -/
def tick_block_decay_delta (delta : ℚ) (barricade : Bool) (b : Block) : Block :=
  if barricade then b
  else if 0 < b.current then ⟨max (b.current - BLOCK_DECAY_RATE * delta) 0⟩
  else b

/-- Per-player container for the two-player match. -/
structure Two (α : Type) where
  p0 : α
  p1 : α
deriving DecidableEq, Repr

def Two.get (t : Two α) : Ent → α
  | false => t.p0
  | true => t.p1

def Two.set (t : Two α) : Ent → α → Two α
  | false, v => ⟨v, t.p1⟩
  | true, v => ⟨t.p0, v⟩

def Two.update (t : Two α) (e : Ent) (f : α → α) : Two α :=
  t.set e (f (t.get e))

/-! ## Input wire format and reconciliation (input.rs, input_buffer.rs) -/

def INPUT_DRAW : ℕ := 1

/-- Mirrors `card_flag`: map a hand index (0-9) to an input flag bit. -/
def card_flag (index : ℕ) : Option ℕ :=
  if index < 10 then some (2 ^ (index + 1)) else none

/-- Messages produced by input reconciliation for one player:
requested draw counts and requested play hand-indices. -/
structure InputEvents where
  draws : List ℕ
  plays : List ℕ
deriving DecidableEq, Repr

/-- The hand-slot scan of `apply_local_input_flags`
(`for i in 0..MAX_HAND_SIZE { ... break }`), written as recursion over the
list of remaining loop indices: at the first slot whose flag bit is set,
optionally emit a play message (slot occupied, card registered, effective
cost affordable) and stop scanning (`break`) regardless of the attempt's
outcome. -/
def scanPlaySlots (reg : CardRegistry) (corruption_active : Bool)
    (hand : List CardId) (flags : ℕ) : List ℕ → Cost → Cost × List ℕ
  | [], cost => (cost, [])
  | i :: rest, cost =>
      match card_flag i with
      | none => scanPlaySlots reg corruption_active hand flags rest cost
      | some flag =>
          if flags &&& flag != 0 then
            match hand.get? i with
            | none => (cost, [])
            | some card_id =>
                match registryGet reg card_id with
                | none => (cost, [])
                | some card_def =>
                    let effective_cost :=
                      if corruption_active && (card_def.card_type == CardType.Skill)
                      then 0 else card_def.cost
                    let r := cost.try_spend effective_cost
                    (r.2, if r.1 then [i] else [])
          else scanPlaySlots reg corruption_active hand flags rest cost

/-- Mirrors `apply_local_input_flags` (input_buffer.rs): the draw branch
spends `DRAW_COST` and enqueues a draw-`DRAW_COUNT` request when the draw
bit is set and the spend succeeds, then the hand slots are scanned for at
most one play request. -/
def apply_local_input_flags (flags : ℕ) (hand : List CardId) (cost : Cost)
    (corruption_active : Bool) (reg : CardRegistry) : Cost × InputEvents :=
  let rd :=
    if flags &&& INPUT_DRAW != 0 then
      let r := cost.try_spend DRAW_COST
      (r.2, if r.1 then [DRAW_COUNT] else [])
    else (cost, ([] : List ℕ))
  let rp := scanPlaySlots reg corruption_active hand flags
    (List.range MAX_HAND_SIZE) rd.1
  (rp.1, ⟨rd.2, rp.2⟩)

/-! ## Health/Block/Thorns resolver (health.rs) -/

/-- Outcome of resolving one `DamageMessage` against its target.
`healthWritten` records whether Health was actually written (Bevy change
detection feeds `check_death`'s `Changed<Health>` filter). -/
structure DamageResolution where
  health : Health
  block : Block
  healthWritten : Bool
  reflected : List ThornsDamageMessage
deriving DecidableEq, Repr

/-- Resolution of a single `DamageMessage` against the target's components
(the body of the `handle_damage` message loop): clamp to `≥ 0`, absorb from
Block first, apply the remainder to Health, and reflect via Thorns only for
attack-kind damage with a known source, positive thorns and positive
amount. -/
def handle_damage_one (health : Health) (block : Block) (thorns : Thorns)
    (msg : DamageMessage) : DamageResolution :=
  let remaining0 := Max.max msg.amount 0
  let absorbed := Min.min remaining0 block.current
  let block' : Block := ⟨Max.max (block.current - absorbed) 0⟩
  let remaining := remaining0 - absorbed
  let wrote := decide (0 < remaining)
  let health' := if 0 < remaining then health.take_damage remaining else health
  let reflected :=
    if msg.kind = DamageKind.Attack then
      match msg.source with
      | some src =>
          if 0 < thorns.damage ∧ 0 < msg.amount then
            [⟨src, thorns.damage, msg.target⟩]
          else []
      | none => []
    else []
  ⟨health', block', wrote, reflected⟩

/-- Mirrors `handle_thorns_damage`: each `ThornsDamageMessage` is turned
into a `DamageMessage` tagged `DamageKind.Thorns`. -/
def handle_thorns_damage (msgs : List ThornsDamageMessage) : List DamageMessage :=
  msgs.map (fun m => ⟨m.target, m.amount, some m.source, DamageKind.Thorns⟩)

/-! ## Deck systems (deck.rs) -/

/-- deck/hand/discard triple of one player. -/
structure DrawState where
  deck : Deck
  hand : List CardId
  discard : List CardId
deriving DecidableEq, Repr

/-- Events emitted while drawing: `DeckReshuffledMessage` payloads (the
reshuffled deck contents) and Fire Breathing `DamageMessage`s. -/
structure DrawEvents where
  reshuffles : List (List CardId)
  damage : List DamageMessage
deriving DecidableEq, Repr

/-- Evolve/Fire-Breathing event bookkeeping for one drawn card
(the `if is_status { ... }` block of the draw loop, event part). -/
def statusHookEvents (isStatus : Bool) (fireDamage : ℚ) (fireTarget : Option Ent)
    (player : Ent) (ev : DrawEvents) : DrawEvents :=
  if isStatus then
    match fireTarget with
    | some tgt =>
        ⟨ev.reshuffles, ev.damage ++ [⟨tgt, fireDamage, some player, DamageKind.Power⟩]⟩
    | none => ev
  else ev

theorem statusHookEvents_reshuffles (b : Bool) (fd : ℚ) (ft : Option Ent)
    (p : Ent) (ev : DrawEvents) :
    (statusHookEvents b fd ft p ev).reshuffles = ev.reshuffles := by
  unfold statusHookEvents
  split
  · split <;> rfl
  · rfl

/-- The `while draws_remaining > 0` loop of `handle_draw_cards`: refill
from the discard pile when the deck runs empty (with a reshuffle
notification), stop at the hand-size ceiling or when deck and discard are
both exhausted, and fire the Evolve/Fire-Breathing hooks once per drawn
Status card. Because each non-exiting iteration grows the hand by one card
and the loop exits at the hand-size ceiling, the loop is driven by a
structural fuel `MAX_HAND_SIZE + 1 - hand.length` supplied by the wrapper;
`handle_draw_cards_loop_fuel` shows any sufficient fuel gives the same
result, so the fuel-exhaustion branch is unreachable from the wrapper. -/
def handle_draw_cards_loop (reg : CardRegistry) (player : Ent)
    (evolveBonus : ℕ) (fireDamage : ℚ) (fireTarget : Option Ent) :
    ℕ → ℕ → DrawState → DrawEvents → DrawState × DrawEvents
  | _, 0, st, ev => (st, ev)
  | 0, _ + 1, st, ev => (st, ev)
  | fuel + 1, n + 1, st, ev =>
    if MAX_HAND_SIZE ≤ st.hand.length then (st, ev)
    else
      let recycle : Bool := st.deck.cards.isEmpty && !st.discard.isEmpty
      let deck1 := if recycle then (st.deck.add_cards st.discard).shuffle else st.deck
      let discard1 := if recycle then [] else st.discard
      let ev1 : DrawEvents :=
        if recycle then ⟨ev.reshuffles ++ [deck1.cards], ev.damage⟩ else ev
      match deck1.draw with
      | none => (⟨deck1, st.hand, discard1⟩, ev1)
      | some (c, deck2) =>
          let isStatus :=
            match registryGet reg c with
            | some cd => cd.card_type == CardType.Status
            | none => false
          let n' := if isStatus && decide (0 < evolveBonus) then n + evolveBonus else n
          let ev2 := statusHookEvents isStatus fireDamage fireTarget player ev1
          handle_draw_cards_loop reg player evolveBonus fireDamage fireTarget fuel n'
            ⟨deck2, st.hand ++ [c], discard1⟩ ev2

/-- Any two sufficient fuels give the same draw-loop result: the loop
always exits through one of its own conditions before fuel runs out. -/
theorem handle_draw_cards_loop_fuel (reg : CardRegistry) (player : Ent)
    (eb : ℕ) (fd : ℚ) (ft : Option Ent) :
    ∀ (f1 f2 n : ℕ) (st : DrawState) (ev : DrawEvents),
      MAX_HAND_SIZE < st.hand.length + f1 → MAX_HAND_SIZE < st.hand.length + f2 →
      handle_draw_cards_loop reg player eb fd ft f1 n st ev
        = handle_draw_cards_loop reg player eb fd ft f2 n st ev := by
  intro f1
  induction f1 with
  | zero =>
      intro f2 n st ev h1 h2
      cases n with
      | zero => cases f2 <;> rfl
      | succ m =>
          cases f2 with
          | zero => rfl
          | succ g =>
              have hguard : MAX_HAND_SIZE ≤ st.hand.length := by omega
              simp only [handle_draw_cards_loop, if_pos hguard]
  | succ f ih =>
      intro f2 n st ev h1 h2
      cases n with
      | zero => cases f2 <;> rfl
      | succ m =>
          cases f2 with
          | zero =>
              have hguard : MAX_HAND_SIZE ≤ st.hand.length := by omega
              simp only [handle_draw_cards_loop, if_pos hguard]
          | succ g =>
              by_cases hguard : MAX_HAND_SIZE ≤ st.hand.length
              · simp only [handle_draw_cards_loop, if_pos hguard]
              · simp only [handle_draw_cards_loop, if_neg hguard]
                cases hdraw : (if st.deck.cards.isEmpty && !st.discard.isEmpty
                    then (st.deck.add_cards st.discard).shuffle else st.deck).draw with
                | none => simp [hdraw]
                | some cd2 =>
                    simp only [hdraw]
                    exact ih g _ _ _ (by simp; omega) (by simp; omega)

/-- Mirrors `handle_draw_cards` for one `DrawCardsMessage`: the Evolve
bonus and Fire Breathing damage are read once before the loop. -/
def handle_draw_cards (reg : CardRegistry) (player : Ent)
    (evolve : Option EvolveEffect) (fire : Option FireBreathingEffect)
    (st : DrawState) (count : ℕ) : DrawState × DrawEvents :=
  let evolveBonus := match evolve with
    | some e => e.draw_on_status
    | none => 0
  let fireDamage := match fire with
    | some f => f.damage_on_status_draw
    | none => 0
  let fireTarget := if 0 < fireDamage then opponent_entity player else none
  handle_draw_cards_loop reg player evolveBonus fireDamage fireTarget
    (MAX_HAND_SIZE + 1 - st.hand.length) count st ⟨[], []⟩

/-- hand/deck pair touched by `handle_play_card`. -/
structure PlayState where
  hand : List CardId
  deck : Deck
deriving DecidableEq, Repr

/-- Events emitted by `handle_play_card`: `CardPlayedMessage` and
`CardExhaustedMessage` card ids for this player. -/
structure PlayEvents where
  played : List CardId
  exhausted : List CardId
deriving DecidableEq, Repr

/-- Mirrors `handle_play_card` for one `PlayCardMessage`: remove the card
at `hand_index` (no-op when out of range); return it to the deck unless it
is a Power card, an `Exhaust`-effect card, or a Skill played under an
active Corruption power; the latter two count as exhausted. -/
def handle_play_card (reg : CardRegistry) (corruption_active : Bool)
    (st : PlayState) (hand_index : ℕ) : PlayState × PlayEvents :=
  match st.hand.get? hand_index with
  | none => (st, ⟨[], []⟩)
  | some card_id =>
      let hand' := st.hand.eraseIdx hand_index
      let f1 : Bool × Bool := (true, false)
      let f2 :=
        match registryGet reg card_id with
        | none => f1
        | some card_def =>
            let a := if card_def.card_type == CardType.Power then (false, f1.2) else f1
            let b := if card_def.effect.isExhaust then (false, true) else a
            if card_def.card_type == CardType.Skill && corruption_active
            then (false, true) else b
      let deck' := if f2.1 then st.deck.add_cards [card_id] else st.deck
      (⟨hand', deck'⟩, ⟨[card_id], if f2.2 then [card_id] else []⟩)

/-! ## Attack damage computation (effect.rs `attack_damage`) -/

/-- Mirrors `attack_damage`: `raw = base + strength * 10`, then the
source's Weak multiplier, then the target's Vulnerable multiplier, floored
at 0. The opponent is optional exactly as in the source. -/
def attack_damage (base : ℚ) (strength : ℚ) (w : Weak)
    (vOpp : Option Vulnerable) : ℚ :=
  let d1 := base + strength * 10
  let d2 := w.modify_outgoing_damage d1
  let d3 :=
    match vOpp with
    | some v => v.modify_incoming_damage d2
    | none => d2
  Max.max d3 0

/-! ## Effect resolution engine (effect.rs) -/

/-- A deferred `commands.entity(player).insert(...)` of a power (or
Acceleration) component, applied when the command queue flushes after
`apply_card_effects`. -/
inductive PowerInsert where
  | rage (r : RageEffect)
  | metallicize (m : MetallicizeEffect)
  | combust (c : CombustEffect)
  | demonForm (d : DemonFormEffect)
  | barricade
  | juggernaut (j : JuggernautEffect)
  | darkEmbrace (d : DarkEmbraceEffect)
  | evolve (e : EvolveEffect)
  | feelNoPain (f : FeelNoPainEffect)
  | fireBreathing (f : FireBreathingEffect)
  | rupture (r : RuptureEffect)
  | corruption
  | brutality (b : BrutalityEffect)
  | acceleration (a : Acceleration)
deriving DecidableEq, Repr

/-- The message writers available to `apply_card_effect`
(the `EffectMessages` system param), as accumulated lists. -/
structure EffectMsgs where
  damage : List DamageMessage
  heal : List (Ent × ℚ)
  draw : List (Ent × ℕ)
  block : List (Ent × ℚ)
  thorns : List (Ent × ℚ)
  strength : List (Ent × ℚ)
  vulnerable : List (Ent × ℚ)
  weak : List (Ent × ℚ)
  addStatus : List (Ent × CardId)
deriving DecidableEq, Repr

def EffectMsgs.empty : EffectMsgs := ⟨[], [], [], [], [], [], [], [], []⟩

def EffectMsgs.addDamage (m : EffectMsgs) (d : DamageMessage) : EffectMsgs :=
  { m with damage := m.damage ++ [d] }

def EffectMsgs.addDamageMany (m : EffectMsgs) (ds : List DamageMessage) : EffectMsgs :=
  { m with damage := m.damage ++ ds }

def EffectMsgs.addHeal (m : EffectMsgs) (x : Ent × ℚ) : EffectMsgs :=
  { m with heal := m.heal ++ [x] }

def EffectMsgs.addDraw (m : EffectMsgs) (x : Ent × ℕ) : EffectMsgs :=
  { m with draw := m.draw ++ [x] }

def EffectMsgs.addBlock (m : EffectMsgs) (x : Ent × ℚ) : EffectMsgs :=
  { m with block := m.block ++ [x] }

def EffectMsgs.addThorns (m : EffectMsgs) (x : Ent × ℚ) : EffectMsgs :=
  { m with thorns := m.thorns ++ [x] }

def EffectMsgs.addStrength (m : EffectMsgs) (x : Ent × ℚ) : EffectMsgs :=
  { m with strength := m.strength ++ [x] }

def EffectMsgs.addVulnerable (m : EffectMsgs) (x : Ent × ℚ) : EffectMsgs :=
  { m with vulnerable := m.vulnerable ++ [x] }

def EffectMsgs.addWeak (m : EffectMsgs) (x : Ent × ℚ) : EffectMsgs :=
  { m with weak := m.weak ++ [x] }

def EffectMsgs.addAddStatus (m : EffectMsgs) (x : Ent × CardId) : EffectMsgs :=
  { m with addStatus := m.addStatus ++ [x] }

/-- Mutable state threaded through `apply_card_effect`: the live `Cost`
and `Acceleration` components (mutated directly through `cost_query`), the
deferred command inserts, and the accumulated messages. -/
structure EffState where
  costs : Two Cost
  accels : Two (Option Acceleration)
  inserts : List (Ent × PowerInsert)
  msgs : EffectMsgs
deriving DecidableEq, Repr

def EffState.insert (st : EffState) (e : Ent) (p : PowerInsert) : EffState :=
  { st with inserts := st.inserts ++ [(e, p)] }

def EffState.withMsgs (st : EffState) (f : EffectMsgs → EffectMsgs) : EffState :=
  { st with msgs := f st.msgs }

mutual

/-- Mirrors the recursive `apply_card_effect` (effect.rs). The strength
snapshot `player_strength` and the Block/Weak/Vulnerable component reads
are those of the live world at resolution time: nothing mutates them
during the `apply_card_effects` system, since all gain intents are
deferred messages handled by later systems. -/
def apply_card_effect (player : Ent) (opponent : Option Ent)
    (player_strength : ℚ) (blocks : Two Block) (weaks : Two Weak)
    (vulns : Two Vulnerable) : CardEffect → EffState → EffState
  | .Damage amount, st =>
      match opponent with
      | some opp =>
          let total := attack_damage amount player_strength (weaks.get player)
            (some (vulns.get opp))
          st.withMsgs (·.addDamage ⟨opp, total, some player, .Attack⟩)
      | none => st
  | .MultiHit damage hits, st =>
      match opponent with
      | some opp =>
          let total := attack_damage damage player_strength (weaks.get player)
            (some (vulns.get opp))
          st.withMsgs (·.addDamageMany
            (List.replicate hits ⟨opp, total, some player, .Attack⟩))
      | none => st
  | .Heal amount, st => st.withMsgs (·.addHeal (player, amount))
  | .Draw count, st => st.withMsgs (·.addDraw (player, count))
  | .Block amount, st => st.withMsgs (·.addBlock (player, amount))
  | .Thorns amount, st => st.withMsgs (·.addThorns (player, amount))
  | .Strength amount, st => st.withMsgs (·.addStrength (player, amount))
  | .Vulnerable duration, st =>
      match opponent with
      | some opp => st.withMsgs (·.addVulnerable (opp, duration))
      | none => st
  | .SelfVulnerable duration, st => st.withMsgs (·.addVulnerable (player, duration))
  | .Weak duration, st =>
      match opponent with
      | some opp => st.withMsgs (·.addWeak (opp, duration))
      | none => st
  | .Accelerate bonus_rate duration, st =>
      let c := st.costs.get player
      let st1 := { st with costs := st.costs.set player ⟨c.current, c.rate + bonus_rate⟩ }
      (match st1.accels.get player with
       | some a =>
           { st1 with accels := st1.accels.set player (some (a.extend bonus_rate duration)) }
       | none => st1.insert player (.acceleration (Acceleration.new bonus_rate duration)))
  | .BodySlam, st =>
      match opponent with
      | some opp =>
          let total := attack_damage (blocks.get player).current player_strength
            (weaks.get player) (some (vulns.get opp))
          st.withMsgs (·.addDamage ⟨opp, total, some player, .Attack⟩)
      | none => st
  | .Bloodletting amount, st =>
      if amount < 0 then
        st.withMsgs (·.addDamage ⟨player, -amount, some player, .Power⟩)
      else
        st.withMsgs (·.addHeal (player, amount))
  | .DoubleBlock, st => st.withMsgs (·.addBlock (player, (blocks.get player).current))
  | .DoubleStrength, st => st.withMsgs (·.addStrength (player, player_strength))
  | .Rage block_per_attack, st =>
      st.insert player (.rage (RageEffect.new block_per_attack 10))
  | .Metallicize block_per_second, st =>
      st.insert player (.metallicize ⟨block_per_second⟩)
  | .Combust self_damage enemy_damage, st =>
      st.insert player (.combust (CombustEffect.new self_damage enemy_damage))
  | .DemonForm strength_per_second, st =>
      st.insert player (.demonForm (DemonFormEffect.new strength_per_second))
  | .Barricade, st => st.insert player .barricade
  | .Juggernaut damage_on_block, st =>
      st.insert player (.juggernaut ⟨damage_on_block⟩)
  | .DarkEmbrace draw, st => st.insert player (.darkEmbrace ⟨draw⟩)
  | .Evolve draw, st => st.insert player (.evolve ⟨draw⟩)
  | .FeelNoPain block, st => st.insert player (.feelNoPain ⟨block⟩)
  | .FireBreathing damage, st => st.insert player (.fireBreathing ⟨damage⟩)
  | .Rupture strength, st => st.insert player (.rupture ⟨strength⟩)
  | .Corruption, st => st.insert player .corruption
  | .Brutality self_damage draw interval, st =>
      st.insert player (.brutality (BrutalityEffect.new self_damage draw interval))
  | .Exhaust, st => st
  | .AddStatus card_id, st => st.withMsgs (·.addAddStatus (player, card_id))
  | .Combo effects, st =>
      apply_card_effect_list player opponent player_strength blocks weaks vulns effects st

/-- Sequential application of a `Combo`'s children in list order. -/
def apply_card_effect_list (player : Ent) (opponent : Option Ent)
    (player_strength : ℚ) (blocks : Two Block) (weaks : Two Weak)
    (vulns : Two Vulnerable) : List CardEffect → EffState → EffState
  | [], st => st
  | e :: es, st =>
      apply_card_effect_list player opponent player_strength blocks weaks vulns es
        (apply_card_effect player opponent player_strength blocks weaks vulns e st)

end

/-- Read-only component context of the two players at the start of the
`apply_card_effects` system. -/
structure PlayersCtx where
  strengths : Two Strength
  blocks : Two Block
  weaks : Two Weak
  vulns : Two Vulnerable
  rages : Two (Option RageEffect)
  darkEmbraces : Two (Option DarkEmbraceEffect)
  feelNoPains : Two (Option FeelNoPainEffect)
deriving DecidableEq, Repr

/-- Mirrors the `apply_card_effects` system: resolve each
`CardPlayedMessage` (with the Rage on-attack block bonus), then the
`CardExhaustedMessage` Dark Embrace / Feel No Pain hooks. -/
def apply_card_effects (reg : CardRegistry) (ctx : PlayersCtx)
    (played : List (Ent × CardId)) (exhausted : List (Ent × CardId))
    (st0 : EffState) : EffState :=
  let st1 := played.foldl (fun st pe =>
    match registryGet reg pe.2 with
    | none => st
    | some card_def =>
        let player := pe.1
        let player_strength := (ctx.strengths.get player).amount
        let st' := apply_card_effect player (opponent_entity player) player_strength
          ctx.blocks ctx.weaks ctx.vulns card_def.effect st
        if card_def.card_type == CardType.Attack then
          match ctx.rages.get player with
          | some rage =>
              if rage.is_active then
                st'.withMsgs (·.addBlock (player, rage.block_per_attack))
              else st'
          | none => st'
        else st') st0
  exhausted.foldl (fun st pe =>
    let st' :=
      match ctx.darkEmbraces.get pe.1 with
      | some de =>
          if 0 < de.draw_on_exhaust then
            st.withMsgs (·.addDraw (pe.1, de.draw_on_exhaust))
          else st
      | none => st
    match ctx.feelNoPains.get pe.1 with
    | some fnp =>
        if 0 < fnp.block_on_exhaust then
          st'.withMsgs (·.addBlock (pe.1, fnp.block_on_exhaust))
        else st'
    | none => st') st1

/-- Mirrors `apply_status_effects`: fold the strength/vulnerable/weak gain
messages into the components and append `AddStatusCardMessage` cards to the
discard piles. -/
def apply_status_effects (msgs : EffectMsgs) (strengths : Two Strength)
    (vulns : Two Vulnerable) (weaks : Two Weak) (discards : Two (List CardId)) :
    Two Strength × Two Vulnerable × Two Weak × Two (List CardId) :=
  let s := msgs.strength.foldl (fun acc m => acc.update m.1 (fun x => x.gain m.2)) strengths
  let v := msgs.vulnerable.foldl (fun acc m => acc.update m.1 (fun x => x.apply m.2)) vulns
  let w := msgs.weak.foldl (fun acc m => acc.update m.1 (fun x => x.apply m.2)) weaks
  let d := msgs.addStatus.foldl (fun acc m => acc.update m.1 (fun x => x ++ [m.2])) discards
  (s, v, w, d)

/-! ## The per-tick pipeline (game/mod.rs `GameplaySystems` order:
Tick → Input → Deck → Effects → Health) -/

/-- Match outcome state (health.rs `GameResult`). -/
inductive GameResultState where
  | Playing
  | Victory
  | Defeat
deriving DecidableEq, Repr

/-- The rollback-snapshot state of one player: every gameplay-mutable
component attached to a player entity. -/
structure PlayerState where
  health : Health
  block : Block
  thorns : Thorns
  cost : Cost
  accel : Option Acceleration
  strength : Strength
  vulnerable : Vulnerable
  weak : Weak
  rage : Option RageEffect
  metallicize : Option MetallicizeEffect
  demonForm : Option DemonFormEffect
  barricade : Bool
  juggernaut : Option JuggernautEffect
  darkEmbrace : Option DarkEmbraceEffect
  evolve : Option EvolveEffect
  feelNoPain : Option FeelNoPainEffect
  fireBreathing : Option FireBreathingEffect
  rupture : Option RuptureEffect
  corruption : Bool
  combust : Option CombustEffect
  brutality : Option BrutalityEffect
  deck : Deck
  hand : List CardId
  discard : List CardId
deriving DecidableEq, Repr

/-- Whole-match mutable state. `pendingDamage` carries the
`DamageMessage`s written by `handle_thorns_damage` after `handle_damage`
already ran (read next tick); `pendingDraw` carries `DrawCardsMessage`s
written during the Effects phase after the Deck phase already ran. -/
structure GameState where
  players : Two PlayerState
  result : GameResultState
  pendingDamage : List DamageMessage
  pendingDraw : List (Ent × ℕ)
deriving DecidableEq, Repr

/-- One tick's inputs: the delta-time and each player's input flag word. -/
structure TickInput where
  delta : ℚ
  flags : Two ℕ
deriving DecidableEq, Repr

/-- Tick phase: acceleration/cost clocks, status decay, periodic powers,
block decay. Returns the updated players plus the emitted gain-block,
damage and draw messages (consumed later in the same tick). -/
def tickPhase (delta : ℚ) (ps0 : Two PlayerState) :
    Two PlayerState × List (Ent × ℚ) × List DamageMessage × List (Ent × ℕ) :=
  let accelStep := fun (p : PlayerState) =>
    match p.accel with
    | some a =>
        let r := tick_acceleration_delta delta p.cost a
        { p with cost := r.1, accel := r.2 }
    | none => p
  let ps1 : Two PlayerState := ⟨accelStep ps0.p0, accelStep ps0.p1⟩
  let costStep := fun (p : PlayerState) =>
    { p with cost := accumulate_cost_delta delta p.cost }
  let ps2 : Two PlayerState := ⟨costStep ps1.p0, costStep ps1.p1⟩
  let statusStep := fun (p : PlayerState) =>
    let v : Vulnerable := ⟨decayDuration delta p.vulnerable.duration⟩
    let w : Weak := ⟨decayDuration delta p.weak.duration⟩
    let rg := p.rage.map (fun r =>
      RageEffect.mk r.block_per_attack (decayDuration delta r.duration))
    let ds :=
      match p.demonForm with
      | some d =>
          let r := tickDemonForm delta d p.strength
          (some r.1, r.2)
      | none => (none, p.strength)
    { p with
        vulnerable := v
        weak := w
        rage := rg
        demonForm := ds.1
        strength := ds.2 }
  let ps3 : Two PlayerState := ⟨statusStep ps2.p0, statusStep ps2.p1⟩
  let metalMsgs := fun (e : Ent) =>
    match (ps3.get e).metallicize with
    | some m =>
        if 0 < m.block_per_second then [(e, m.block_per_second * delta)] else []
    | none => ([] : List (Ent × ℚ))
  let blockMsgs := metalMsgs false ++ metalMsgs true
  let combustStep := fun (e : Ent) (p : PlayerState) =>
    match p.combust with
    | some c =>
        let r := tickCombust delta c
        let batch :=
          (if 0 < c.self_damage then
            [(⟨e, c.self_damage, some e, .Power⟩ : DamageMessage)] else [])
          ++ (if 0 < c.enemy_damage then
            [(⟨!e, c.enemy_damage, some e, .Power⟩ : DamageMessage)] else [])
        ({ p with combust := some r.1 }, (List.replicate r.2 batch).flatten)
    | none => (p, [])
  let c0 := combustStep false ps3.p0
  let c1 := combustStep true ps3.p1
  let ps4 : Two PlayerState := ⟨c0.1, c1.1⟩
  let brutalityStep := fun (e : Ent) (p : PlayerState) =>
    match p.brutality with
    | some b =>
        let r := tickBrutality delta b
        let dmgBatch :=
          if 0 < b.self_damage then
            [(⟨e, b.self_damage, some e, .Power⟩ : DamageMessage)] else []
        let drawBatch := if 0 < b.draw then [(e, b.draw)] else []
        ({ p with brutality := some r.1 },
         (List.replicate r.2 dmgBatch).flatten, (List.replicate r.2 drawBatch).flatten)
    | none => (p, [], [])
  let b0 := brutalityStep false ps4.p0
  let b1 := brutalityStep true ps4.p1
  let (bp0, bdmg0, bdraw0) := b0
  let (bp1, bdmg1, bdraw1) := b1
  let ps5 : Two PlayerState := ⟨bp0, bp1⟩
  let damageMsgs := c0.2 ++ c1.2 ++ bdmg0 ++ bdmg1
  let drawMsgs := bdraw0 ++ bdraw1
  let decayStep := fun (p : PlayerState) =>
    { p with block := tick_block_decay_delta delta p.barricade p.block }
  let ps6 : Two PlayerState := ⟨decayStep ps5.p0, decayStep ps5.p1⟩
  (ps6, blockMsgs, damageMsgs, drawMsgs)

/-- Input phase: reconcile each player's input flag word through
`apply_local_input_flags` (entity order: local player first). -/
def inputPhase (reg : CardRegistry) (ps0 : Two PlayerState) (flags : Two ℕ) :
    Two PlayerState × List (Ent × ℕ) × List (Ent × ℕ) :=
  let step := fun (acc : Two PlayerState × List (Ent × ℕ) × List (Ent × ℕ)) (e : Ent) =>
    let (ps, draws, plays) := acc
    let p := ps.get e
    let r := apply_local_input_flags (flags.get e) p.hand p.cost p.corruption reg
    (ps.set e { p with cost := r.1 },
     draws ++ r.2.draws.map (fun n => (e, n)),
     plays ++ r.2.plays.map (fun i => (e, i)))
  step (step (ps0, [], []) false) true

/-- Deck phase: `handle_draw_cards` over all pending draw messages, then
`handle_play_card` over the play messages (the two systems are chained). -/
def deckPhase (reg : CardRegistry) (ps0 : Two PlayerState)
    (drawMsgs : List (Ent × ℕ)) (playMsgs : List (Ent × ℕ)) :
    Two PlayerState × List (Ent × CardId) × List (Ent × CardId)
      × List (Ent × List CardId) × List DamageMessage :=
  let s1 := drawMsgs.foldl
    (fun (acc : Two PlayerState × List (Ent × List CardId) × List DamageMessage) m =>
      let (ps, resh, dmg) := acc
      let e := m.1
      let p := ps.get e
      let r := handle_draw_cards reg e p.evolve p.fireBreathing
        ⟨p.deck, p.hand, p.discard⟩ m.2
      (ps.set e { p with
          deck := r.1.deck
          hand := r.1.hand
          discard := r.1.discard },
       resh ++ r.2.reshuffles.map (fun d => (e, d)), dmg ++ r.2.damage))
    (ps0, [], [])
  let (ps1, resh, dmg) := s1
  let s2 := playMsgs.foldl
    (fun (acc : Two PlayerState × List (Ent × CardId) × List (Ent × CardId)) m =>
      let (ps, played, exhausted) := acc
      let e := m.1
      let p := ps.get e
      let r := handle_play_card reg p.corruption ⟨p.hand, p.deck⟩ m.2
      (ps.set e { p with hand := r.1.hand, deck := r.1.deck },
       played ++ r.2.played.map (fun c => (e, c)),
       exhausted ++ r.2.exhausted.map (fun c => (e, c))))
    (ps1, [], [])
  let (ps2, played, exhausted) := s2
  (ps2, played, exhausted, resh, dmg)

/-- Application of one flushed command insert to a player entity
(a repeated insert of the same component type overwrites). -/
def applyPowerInsert (p : PlayerState) : PowerInsert → PlayerState
  | .rage r => { p with rage := some r }
  | .metallicize m => { p with metallicize := some m }
  | .combust c => { p with combust := some c }
  | .demonForm d => { p with demonForm := some d }
  | .barricade => { p with barricade := true }
  | .juggernaut j => { p with juggernaut := some j }
  | .darkEmbrace d => { p with darkEmbrace := some d }
  | .evolve e => { p with evolve := some e }
  | .feelNoPain f => { p with feelNoPain := some f }
  | .fireBreathing f => { p with fireBreathing := some f }
  | .rupture r => { p with rupture := some r }
  | .corruption => { p with corruption := true }
  | .brutality b => { p with brutality := some b }
  | .acceleration a => { p with accel := some a }

/-- Effects phase: `apply_card_effects` (with live cost/accel mutation and
deferred power inserts flushed at the system boundary) chained with
`apply_status_effects`. Returns the updated players and the emitted
messages, consumed by the Health phase (damage/heal/block/thorns) and by
the next tick's Deck phase (draw). -/
def effectsPhase (reg : CardRegistry) (ps0 : Two PlayerState)
    (played exhausted : List (Ent × CardId)) : Two PlayerState × EffectMsgs :=
  let ctx : PlayersCtx :=
    ⟨⟨ps0.p0.strength, ps0.p1.strength⟩, ⟨ps0.p0.block, ps0.p1.block⟩,
     ⟨ps0.p0.weak, ps0.p1.weak⟩, ⟨ps0.p0.vulnerable, ps0.p1.vulnerable⟩,
     ⟨ps0.p0.rage, ps0.p1.rage⟩, ⟨ps0.p0.darkEmbrace, ps0.p1.darkEmbrace⟩,
     ⟨ps0.p0.feelNoPain, ps0.p1.feelNoPain⟩⟩
  let st0 : EffState :=
    ⟨⟨ps0.p0.cost, ps0.p1.cost⟩, ⟨ps0.p0.accel, ps0.p1.accel⟩, [], EffectMsgs.empty⟩
  let st1 := apply_card_effects reg ctx played exhausted st0
  let ps1 : Two PlayerState :=
    ⟨{ ps0.p0 with cost := st1.costs.p0, accel := st1.accels.p0 },
     { ps0.p1 with cost := st1.costs.p1, accel := st1.accels.p1 }⟩
  let ps2 := st1.inserts.foldl
    (fun ps ins => ps.update ins.1 (fun p => applyPowerInsert p ins.2)) ps1
  let r := apply_status_effects st1.msgs ⟨ps2.p0.strength, ps2.p1.strength⟩
    ⟨ps2.p0.vulnerable, ps2.p1.vulnerable⟩ ⟨ps2.p0.weak, ps2.p1.weak⟩
    ⟨ps2.p0.discard, ps2.p1.discard⟩
  let (sN, vN, wN, dN) := r
  let ps3 : Two PlayerState :=
    ⟨{ ps2.p0 with
        strength := sN.p0
        vulnerable := vN.p0
        weak := wN.p0
        discard := dN.p0 },
     { ps2.p1 with
        strength := sN.p1
        vulnerable := vN.p1
        weak := wN.p1
        discard := dN.p1 }⟩
  (ps3, st1.msgs)

/-- Health phase: gain-block, gain-thorns, damage resolution (collecting
thorns reflections for the next tick), heal, death check, game-over
transition. The `Two Bool` accumulates Bevy's `Changed<Health>` flags. -/
def healthPhase (ps0 : Two PlayerState) (blockMsgs thornsMsgs : List (Ent × ℚ))
    (damageMsgs : List DamageMessage) (healMsgs : List (Ent × ℚ))
    (result : GameResultState) :
    Two PlayerState × List DamageMessage × GameResultState :=
  let ps1 := blockMsgs.foldl
    (fun ps m => ps.update m.1 (fun p => { p with block := p.block.gain m.2 })) ps0
  let ps2 := thornsMsgs.foldl
    (fun ps m => ps.update m.1 (fun p => { p with thorns := p.thorns.gain m.2 })) ps1
  let dmgRes := damageMsgs.foldl
    (fun (acc : Two PlayerState × Two Bool × List ThornsDamageMessage) msg =>
      let (ps, chg, tout) := acc
      let p := ps.get msg.target
      let r := handle_damage_one p.health p.block p.thorns msg
      (ps.set msg.target { p with health := r.health, block := r.block },
       if r.healthWritten then chg.set msg.target true else chg,
       tout ++ r.reflected))
    (ps2, ⟨false, false⟩, [])
  let (ps3, chg1, thornsOut) := dmgRes
  let nextPending := handle_thorns_damage thornsOut
  let healRes := healMsgs.foldl
    (fun (acc : Two PlayerState × Two Bool) m =>
      let (ps, chg) := acc
      (ps.update m.1 (fun p => { p with health := p.health.heal m.2 }),
       chg.set m.1 true))
    (ps3, chg1)
  let (ps4, chg2) := healRes
  let deaths := (if chg2.p0 && ps4.p0.health.is_dead then [false] else [])
    ++ (if chg2.p1 && ps4.p1.health.is_dead then [true] else [])
  let result' := deaths.foldl
    (fun _ e => if e then GameResultState.Victory else GameResultState.Defeat) result
  (ps4, nextPending, result')

/-- One full tick of the deterministic pipeline. The Tick and Health
phases run whenever the Gameplay screen is active; Input, Deck and Effects
run only while the result is still `Playing` (their systems carry a
`run_if(in_state(GameResult::Playing))` gate). -/
def tickStep (reg : CardRegistry) (s : GameState) (inp : TickInput) : GameState :=
  let t := tickPhase inp.delta s.players
  let (ps1, blockMsgsT, damageMsgsT, drawMsgsT) := t
  if s.result = .Playing then
    let i := inputPhase reg ps1 inp.flags
    let (ps2, drawMsgsI, playMsgs) := i
    let d := deckPhase reg ps2 (s.pendingDraw ++ drawMsgsT ++ drawMsgsI) playMsgs
    let (ps3, played, exhausted, _resh, damageMsgsD) := d
    let ef := effectsPhase reg ps3 played exhausted
    let (ps4, effMsgs) := ef
    let h := healthPhase ps4 (blockMsgsT ++ effMsgs.block) effMsgs.thorns
      (s.pendingDamage ++ damageMsgsT ++ damageMsgsD ++ effMsgs.damage)
      effMsgs.heal s.result
    let (psF, pendF, resF) := h
    ⟨psF, resF, pendF, effMsgs.draw⟩
  else
    let h := healthPhase ps1 blockMsgsT [] (s.pendingDamage ++ damageMsgsT) [] s.result
    let (psF, pendF, resF) := h
    ⟨psF, resF, pendF, []⟩

/-- Run a finite ordered sequence of per-tick inputs. -/
def runTicks (reg : CardRegistry) (s : GameState) (ins : List TickInput) : GameState :=
  ins.foldl (tickStep reg) s

/-! ## Claim theorems -/

theorem drainTimer_additive (x e p : ℚ) (hp : 0 < p) (hx : 0 ≤ x) (he : 0 ≤ e) :
    (drainTimer ((drainTimer x p).2 + e) p).1 + (drainTimer x p).1
      = (drainTimer (x + e) p).1 := by
  have h1 := drainTimer_spec x p hp hx
  have hfl_le : p * ((⌊x / p⌋₊ : ℕ) : ℚ) ≤ x := by
    have hd : ((⌊x / p⌋₊ : ℕ) : ℚ) ≤ x / p := Nat.floor_le (by positivity)
    have := mul_le_mul_of_nonneg_left hd hp.le
    calc p * ((⌊x / p⌋₊ : ℕ) : ℚ) ≤ p * (x / p) := this
      _ = x := by field_simp
  have hrem : 0 ≤ (drainTimer x p).2 := by
    rw [h1]
    simp only
    linarith
  have h2 := drainTimer_spec ((drainTimer x p).2 + e) p hp (by linarith)
  have h3 := drainTimer_spec (x + e) p hp (by linarith)
  rw [h2, h3]
  simp only
  rw [h1]
  simp only
  have hdiv : (x - p * ((⌊x / p⌋₊ : ℕ) : ℚ) + e) / p
      = (x + e) / p - ((⌊x / p⌋₊ : ℕ) : ℚ) := by
    field_simp
    ring
  rw [hdiv, Nat.floor_sub_nat]
  have hmono : ⌊x / p⌋₊ ≤ ⌊(x + e) / p⌋₊ := by
    apply Nat.floor_mono
    exact (div_le_div_right hp).mpr (by linarith)
  omega

/-- C9: one tick of an attached Combust (period 1.0 s) or Brutality
(configured interval p > 0) starting from timer t with delta d emits
exactly ⌊(t + d) / p⌋ damage/draw batches and leaves the timer at
(t + d) − p·⌊(t + d) / p⌋; consequently a single large delta emits the
same cumulative count as two deltas covering the same time. -/
theorem tick_power_period_spec (d e : ℚ) (c : CombustEffect) (b : BrutalityEffect)
    (hd : 0 ≤ d) (he : 0 ≤ e) (hc : 0 ≤ c.timer) (hb : 0 ≤ b.timer)
    (hbi : 0 < b.interval) :
    (tickCombust d c).2 = ⌊(c.timer + d) / 1⌋₊
    ∧ (tickCombust d c).1.timer = (c.timer + d) - 1 * ((⌊(c.timer + d) / 1⌋₊ : ℕ) : ℚ)
    ∧ (tickBrutality d b).2 = ⌊(b.timer + d) / b.interval⌋₊
    ∧ (tickBrutality d b).1.timer
        = (b.timer + d) - b.interval * ((⌊(b.timer + d) / b.interval⌋₊ : ℕ) : ℚ)
    ∧ (tickCombust e (tickCombust d c).1).2 + (tickCombust d c).2
        = (tickCombust (d + e) c).2
    ∧ (tickBrutality e (tickBrutality d b).1).2 + (tickBrutality d b).2
        = (tickBrutality (d + e) b).2 := by
  have hc1 := drainTimer_spec (c.timer + d) 1 one_pos (by linarith)
  have hb1 := drainTimer_spec (b.timer + d) b.interval hbi (by linarith)
  refine ⟨?_, ?_, ?_, ?_, ?_, ?_⟩
  · simp [tickCombust, hc1]
  · simp [tickCombust, hc1]
  · simp [tickBrutality, not_le.mpr hbi, hb1]
  · simp [tickBrutality, not_le.mpr hbi, hb1]
  · have := drainTimer_additive (c.timer + d) e 1 one_pos (by linarith) he
    simp only [tickCombust]
    rw [show c.timer + (d + e) = c.timer + d + e by ring]
    exact this
  · have := drainTimer_additive (b.timer + d) e b.interval hbi (by linarith) he
    simp only [tickBrutality, if_neg (not_le.mpr hbi)]
    rw [show b.timer + (d + e) = b.timer + d + e by ring]
    exact this

theorem tick_power_period_spec_witness :
    (tickCombust (5/2) ⟨5, 3, 1/2⟩).2 = ⌊(((⟨5, 3, 1/2⟩ : CombustEffect).timer + 5/2) / 1 : ℚ)⌋₊
    ∧ (tickCombust (5/2) ⟨5, 3, 1/2⟩).1.timer
        = ((⟨5, 3, 1/2⟩ : CombustEffect).timer + 5/2)
          - 1 * ((⌊(((⟨5, 3, 1/2⟩ : CombustEffect).timer + 5/2) / 1 : ℚ)⌋₊ : ℕ) : ℚ)
    ∧ (tickBrutality (5/2) ⟨2, 1, 3/4, 1/2⟩).2
        = ⌊(((⟨2, 1, 3/4, 1/2⟩ : BrutalityEffect).timer + 5/2)
            / (⟨2, 1, 3/4, 1/2⟩ : BrutalityEffect).interval : ℚ)⌋₊
    ∧ (tickBrutality (5/2) ⟨2, 1, 3/4, 1/2⟩).1.timer
        = ((⟨2, 1, 3/4, 1/2⟩ : BrutalityEffect).timer + 5/2)
          - (⟨2, 1, 3/4, 1/2⟩ : BrutalityEffect).interval
            * ((⌊(((⟨2, 1, 3/4, 1/2⟩ : BrutalityEffect).timer + 5/2)
                / (⟨2, 1, 3/4, 1/2⟩ : BrutalityEffect).interval : ℚ)⌋₊ : ℕ) : ℚ)
    ∧ (tickCombust 1 (tickCombust (5/2) ⟨5, 3, 1/2⟩).1).2 + (tickCombust (5/2) ⟨5, 3, 1/2⟩).2
        = (tickCombust (5/2 + 1) ⟨5, 3, 1/2⟩).2
    ∧ (tickBrutality 1 (tickBrutality (5/2) ⟨2, 1, 3/4, 1/2⟩).1).2
        + (tickBrutality (5/2) ⟨2, 1, 3/4, 1/2⟩).2
        = (tickBrutality (5/2 + 1) ⟨2, 1, 3/4, 1/2⟩).2 :=
  tick_power_period_spec (5/2) 1 ⟨5, 3, 1/2⟩ ⟨2, 1, 3/4, 1/2⟩
    (by norm_num) (by norm_num) (by norm_num) (by norm_num) (by norm_num)

/-- Cost-clock portion of one Tick phase for one player, iterated over a
delta sequence: `tick_acceleration_delta` chained with
`accumulate_cost_delta`, as registered in cost.rs. -/
def runAccelTicks (deltas : List ℚ) (c : Cost) (a : Option Acceleration) :
    Cost × Option Acceleration :=
  deltas.foldl (fun st delta =>
    let st1 := match st.2 with
      | some acc => tick_acceleration_delta delta st.1 acc
      | none => (st.1, none)
    (accumulate_cost_delta delta st1.1, st1.2)) (c, a)

theorem runAccelTicks_none (deltas : List ℚ) (c : Cost) :
    (runAccelTicks deltas c none).1.rate = c.rate
    ∧ (runAccelTicks deltas c none).2 = none := by
  induction deltas generalizing c with
  | nil => exact ⟨rfl, rfl⟩
  | cons d ds ih =>
      have step : runAccelTicks (d :: ds) c none
          = runAccelTicks ds ⟨c.current + c.rate * d, c.rate⟩ none := rfl
      rw [step]
      exact ih ⟨c.current + c.rate * d, c.rate⟩

theorem runAccelTicks_expire (cur c r rem : ℚ) (deltas : List ℚ) (hc : 0 ≤ c)
    (hne : deltas ≠ []) (hpos : ∀ x ∈ deltas, 0 ≤ x) (hsum : rem ≤ deltas.sum) :
    (runAccelTicks deltas ⟨cur, c + r⟩ (some ⟨r, rem⟩)).1.rate = c
    ∧ (runAccelTicks deltas ⟨cur, c + r⟩ (some ⟨r, rem⟩)).2 = none := by
  induction deltas generalizing cur rem with
  | nil => exact absurd rfl hne
  | cons d ds ih =>
      have hd0 : 0 ≤ d := hpos d (by simp)
      by_cases hexp : rem - d ≤ 0
      · have hrate : Max.max (c + r - r) 0 = c := by
          rw [show c + r - r = c by ring]
          exact max_eq_left hc
        have step : runAccelTicks (d :: ds) ⟨cur, c + r⟩ (some ⟨r, rem⟩)
            = runAccelTicks ds ⟨cur + c * d, c⟩ none := by
          simp only [runAccelTicks, List.foldl_cons, tick_acceleration_delta,
            accumulate_cost_delta, if_pos hexp, hrate]
        rw [step]
        have h := runAccelTicks_none ds ⟨cur + c * d, c⟩
        exact ⟨h.1, h.2⟩
      · cases ds with
        | nil =>
            simp only [List.sum_cons, List.sum_nil, add_zero] at hsum
            exact absurd (by linarith) hexp
        | cons d2 ds2 =>
            have step : runAccelTicks (d :: d2 :: ds2) ⟨cur, c + r⟩ (some ⟨r, rem⟩)
                = runAccelTicks (d2 :: ds2) ⟨cur + (c + r) * d, c + r⟩
                    (some ⟨r, rem - d⟩) := by
              have hfold : runAccelTicks (d :: d2 :: ds2) ⟨cur, c + r⟩ (some ⟨r, rem⟩)
                  = runAccelTicks (d2 :: ds2)
                      (accumulate_cost_delta d
                        (tick_acceleration_delta d ⟨cur, c + r⟩ ⟨r, rem⟩).1)
                      (tick_acceleration_delta d ⟨cur, c + r⟩ ⟨r, rem⟩).2 := rfl
              rw [hfold]
              simp only [tick_acceleration_delta, accumulate_cost_delta, if_neg hexp]
            rw [step]
            refine ih (cur + (c + r) * d) (rem - d) ?_ ?_ ?_
            · simp
            · intro x hx
              exact hpos x (by simp [hx])
            · have : d + (d2 :: ds2).sum = (d :: d2 :: ds2).sum := by simp
              have hsum' : rem ≤ d + (d2 :: ds2).sum := by rw [this]; exact hsum
              linarith

/-- C8: applying Accelerate{r, dur} to a player with `Cost.rate = c` and
no active Acceleration immediately raises the rate to `c + r` and inserts
`Acceleration::new(r, dur)`; once the elapsed tick deltas cover the
duration, the component is removed and the rate returns exactly to `c`;
and the component is never removed without its bonus being subtracted back
out of the rate. -/
theorem accelerate_lifecycle (cur c r dur : ℚ) (oc : Cost) (oa : Option Acceleration)
    (bl : Two Block) (wk : Two Weak) (vl : Two Vulnerable)
    (deltas : List ℚ) (hc : 0 ≤ c) (hne : deltas ≠ [])
    (hpos : ∀ x ∈ deltas, 0 ≤ x) (hsum : dur ≤ deltas.sum) :
    (apply_card_effect false (some true) 0 bl wk vl (.Accelerate r dur)
        ⟨⟨⟨cur, c⟩, oc⟩, ⟨none, oa⟩, [], EffectMsgs.empty⟩).costs.p0
      = ⟨cur, c + r⟩
    ∧ (apply_card_effect false (some true) 0 bl wk vl (.Accelerate r dur)
        ⟨⟨⟨cur, c⟩, oc⟩, ⟨none, oa⟩, [], EffectMsgs.empty⟩).inserts
      = [(false, .acceleration (Acceleration.new r dur))]
    ∧ (runAccelTicks deltas ⟨cur, c + r⟩ (some (Acceleration.new r dur))).1.rate = c
    ∧ (runAccelTicks deltas ⟨cur, c + r⟩ (some (Acceleration.new r dur))).2 = none
    ∧ (∀ (delta : ℚ) (cost : Cost) (acc : Acceleration),
        (tick_acceleration_delta delta cost acc).2 = none →
        (tick_acceleration_delta delta cost acc).1.rate
          = Max.max (cost.rate - acc.bonus_rate) 0) := by
  have hsum0 : 0 ≤ deltas.sum := List.sum_nonneg hpos
  have hrem : Max.max dur 0 ≤ deltas.sum := max_le hsum hsum0
  have hexp := runAccelTicks_expire cur c r (Max.max dur 0) deltas hc hne hpos hrem
  refine ⟨rfl, rfl, hexp.1, hexp.2, ?_⟩
  intro delta cost acc hnone
  simp only [tick_acceleration_delta] at hnone ⊢
  by_cases hx : acc.remaining - delta ≤ 0
  · simp only [if_pos hx]
  · simp only [if_neg hx] at hnone
    exact Option.noConfusion hnone

theorem accelerate_lifecycle_witness :
    (runAccelTicks [1, 1, 1, 1] ⟨0, 1 + 1/2⟩ (some (Acceleration.new (1/2) 4))).1.rate = 1
    ∧ (runAccelTicks [1, 1, 1, 1] ⟨0, 1 + 1/2⟩ (some (Acceleration.new (1/2) 4))).2 = none := by
  have h := accelerate_lifecycle 0 1 (1/2) 4 (Cost.new 1) none
    ⟨⟨0⟩, ⟨0⟩⟩ ⟨⟨0⟩, ⟨0⟩⟩ ⟨⟨0⟩, ⟨0⟩⟩ [1, 1, 1, 1]
    (by norm_num) (by simp) (by intro x hx; simp at hx; rw [hx]; norm_num) (by norm_num)
  exact ⟨h.2.2.1, h.2.2.2.1⟩

theorem attack_damage_closed (base st : ℚ) (w : Weak) (v : Vulnerable) :
    attack_damage base st w (some v)
      = Max.max ((base + st * 10) * (if w.is_active then 3/4 else 1)
          * (if v.is_active then 3/2 else 1)) 0 := by
  by_cases hw : w.is_active <;> by_cases hv : v.is_active <;>
    simp [attack_damage, Weak.modify_outgoing_damage,
      Vulnerable.modify_incoming_damage, hw, hv] <;>
    (congr 1; ring)

/-- C6: every attack-kind effect (Damage, MultiHit, BodySlam) with base b
resolved by a player with strength st against an opponent emits damage
amounts equal to max(0, (b + st·10) × 0.75 if the source's Weak is active
× 1.5 if the target's Vulnerable is active, in that order); BodySlam
substitutes the player's current Block as the base; MultiHit computes the
value once and emits exactly `hits` identical intents; and base 100 with
attacker Weak and defender Vulnerable both active yields 112.5. -/
theorem attack_effect_damage_spec (b st : ℚ) (hits : ℕ) (player opp : Ent)
    (blocks : Two Block) (weaks : Two Weak) (vulns : Two Vulnerable)
    (s0 : EffState) :
    ((apply_card_effect player (some opp) st blocks weaks vulns
        (.Damage b) s0).msgs.damage
      = s0.msgs.damage ++ [⟨opp, Max.max ((b + st * 10)
          * (if (weaks.get player).is_active then 3/4 else 1)
          * (if (vulns.get opp).is_active then 3/2 else 1)) 0,
          some player, .Attack⟩])
    ∧ ((apply_card_effect player (some opp) st blocks weaks vulns
        (.MultiHit b hits) s0).msgs.damage
      = s0.msgs.damage ++ List.replicate hits ⟨opp, Max.max ((b + st * 10)
          * (if (weaks.get player).is_active then 3/4 else 1)
          * (if (vulns.get opp).is_active then 3/2 else 1)) 0,
          some player, .Attack⟩)
    ∧ ((apply_card_effect player (some opp) st blocks weaks vulns
        .BodySlam s0).msgs.damage
      = s0.msgs.damage ++ [⟨opp, Max.max (((blocks.get player).current + st * 10)
          * (if (weaks.get player).is_active then 3/4 else 1)
          * (if (vulns.get opp).is_active then 3/2 else 1)) 0,
          some player, .Attack⟩])
    ∧ attack_damage 100 0 ⟨1⟩ (some ⟨1⟩) = 225/2 := by
  refine ⟨?_, ?_, ?_, ?_⟩
  · simp [apply_card_effect, EffState.withMsgs, EffectMsgs.addDamage,
      attack_damage_closed]
  · simp [apply_card_effect, EffState.withMsgs, EffectMsgs.addDamageMany,
      attack_damage_closed]
  · simp [apply_card_effect, EffState.withMsgs, EffectMsgs.addDamage,
      attack_damage_closed]
  · norm_num [attack_damage, Weak.modify_outgoing_damage,
      Vulnerable.modify_incoming_damage, Weak.is_active, Vulnerable.is_active]

/-- C3 counterexample: an attack-kind damage instance of amount 0 against a
target with Thorns = 10 and a known source emits no reflected intent, so an
attack-kind instance with positive Thorns and a known source does not
always reflect (the code also requires a positive amount). -/
theorem thorns_zero_amount_counterexample :
    (0 : ℚ) < 10
    ∧ (handle_damage_one (Health.new 100) ⟨0⟩ ⟨10⟩
        ⟨false, 0, some true, .Attack⟩).reflected = []
    ∧ (handle_damage_one (Health.new 100) ⟨0⟩ ⟨10⟩
        ⟨false, 0, some true, .Attack⟩).reflected.length ≠ 1 := by
  refine ⟨by norm_num, by decide, by decide⟩

/-- C3 (amended): resolving an attack-kind damage instance with positive
amount whose target has Thorns > 0 and whose source is known emits exactly
one reflected thorns intent back at the source carrying the target's
Thorns value; thorns-kind and power-kind damage never reflect;
`handle_thorns_damage` re-emits a reflected intent as a Thorns-kind
damage message, and resolving such a message never reflects again even
when its target also has positive Thorns. -/
theorem thorns_reflection_spec (h : Health) (b : Block) (t : Thorns)
    (m : DamageMessage) :
    (∀ src, m.kind = DamageKind.Attack → m.source = some src → 0 < t.damage →
      0 < m.amount →
      (handle_damage_one h b t m).reflected = [⟨src, t.damage, m.target⟩])
    ∧ (m.kind = DamageKind.Thorns ∨ m.kind = DamageKind.Power →
      (handle_damage_one h b t m).reflected = [])
    ∧ (∀ tm : ThornsDamageMessage,
        handle_thorns_damage [tm]
          = [⟨tm.target, tm.amount, some tm.source, .Thorns⟩])
    ∧ (∀ (h2 : Health) (b2 : Block) (t2 : Thorns) (tm : ThornsDamageMessage)
        (dm : DamageMessage), dm ∈ handle_thorns_damage [tm] →
        (handle_damage_one h2 b2 t2 dm).reflected = []) := by
  refine ⟨?_, ?_, ?_, ?_⟩
  · intro src hk hs ht ha
    simp [handle_damage_one, hk, hs, ht, ha]
  · intro hk
    rcases hk with hk | hk <;> simp [handle_damage_one, hk]
  · intro tm
    rfl
  · intro h2 b2 t2 tm dm hdm
    simp only [handle_thorns_damage, List.map_cons, List.map_nil,
      List.mem_singleton] at hdm
    subst hdm
    simp [handle_damage_one]

theorem thorns_reflection_spec_witness :
    (handle_damage_one (Health.new 100) ⟨0⟩ ⟨10⟩
      ⟨false, 20, some true, .Attack⟩).reflected = [⟨true, 10, false⟩] :=
  (thorns_reflection_spec (Health.new 100) ⟨0⟩ ⟨10⟩
    ⟨false, 20, some true, .Attack⟩).1 true rfl rfl (by norm_num) (by norm_num)

/-- C10: with a Corruption power attached, playing a Skill card from any
valid hand index removes it from the hand, returns it to neither deck nor
discard (the play handler leaves the deck untouched and never touches the
discard pile), and emits a card-exhausted event alongside the card-played
event — the outcome produced for an explicit `Exhaust` card. -/
theorem corruption_skill_exhausts (reg : CardRegistry) (st : PlayState) (i : ℕ)
    (c : CardId) (cd : CardDef) (hc : st.hand.get? i = some c)
    (hreg : registryGet reg c = some cd) (htype : cd.card_type = CardType.Skill) :
    handle_play_card reg true st i = (⟨st.hand.eraseIdx i, st.deck⟩, ⟨[c], [c]⟩) := by
  simp only [handle_play_card, hc, hreg]
  have hnp : (cd.card_type == CardType.Power) = false := by
    simp [htype]
  have hskill : (cd.card_type == CardType.Skill && true) = true := by
    simp [htype]
  cases hex : cd.effect.isExhaust <;> simp [hnp, hskill, hex]

theorem corruption_skill_exhausts_witness :
    handle_play_card [⟨104, 1, .Skill, .Block 8⟩] true ⟨[104], ⟨[], 5⟩⟩ 0
      = (⟨[], ⟨[], 5⟩⟩, ⟨[104], [104]⟩) :=
  corruption_skill_exhausts [⟨104, 1, .Skill, .Block 8⟩] ⟨[104], ⟨[], 5⟩⟩ 0 104
    ⟨104, 1, .Skill, .Block 8⟩ rfl rfl rfl

theorem land_two_pow_bne (flags b : ℕ) :
    (flags &&& 2 ^ b != 0) = flags.testBit b := by
  rw [Nat.and_two_pow]
  cases h : flags.testBit b <;> simp [h, (Nat.two_pow_pos b).ne']

theorem play_pair_len (c' : Cost) (bb : Bool) (i : ℕ) :
    (((c', if bb then [i] else []) : Cost × List ℕ).2).length ≤ 1 := by
  cases bb <;> simp

theorem scanPlaySlots_length_le (reg : CardRegistry) (corr : Bool)
    (hand : List CardId) (flags : ℕ) (idxs : List ℕ) (cost : Cost) :
    ((scanPlaySlots reg corr hand flags idxs cost).2).length ≤ 1 := by
  induction idxs generalizing cost with
  | nil => simp [scanPlaySlots]
  | cons i rest ih =>
      rw [scanPlaySlots]
      split
      · exact ih cost
      · split
        · split
          · simp
          · split
            · simp
            · exact play_pair_len _ _ _
        · exact ih cost

theorem scanPlaySlots_clear (reg : CardRegistry) (corr : Bool)
    (hand : List CardId) (flags : ℕ) (idxs : List ℕ) (cost : Cost)
    (hclear : ∀ j ∈ idxs, flags.testBit (j + 1) = false) :
    scanPlaySlots reg corr hand flags idxs cost = (cost, []) := by
  induction idxs with
  | nil => rfl
  | cons i rest ih =>
      rw [scanPlaySlots]
      cases hcf : card_flag i with
      | none => exact ih (fun j hj => hclear j (by simp [hj]))
      | some flag =>
          have hflag : flag = 2 ^ (i + 1) := by
            unfold card_flag at hcf
            by_cases hi : i < 10
            · simp [hi] at hcf
              exact hcf.symm
            · simp [hi] at hcf
          have hbit : (flags &&& flag != 0) = false := by
            rw [hflag, land_two_pow_bne]
            exact hclear i (by simp)
          simp only [hbit, Bool.false_eq_true, if_false]
          exact ih (fun j hj => hclear j (by simp [hj]))

theorem scanPlaySlots_found (reg : CardRegistry) (corr : Bool)
    (hand : List CardId) (flags : ℕ) (pre : List ℕ) (i : ℕ) (rest : List ℕ)
    (cost : Cost) (hpre : ∀ j ∈ pre, flags.testBit (j + 1) = false)
    (hi : i < 10) (hbit : flags.testBit (i + 1) = true) (c : CardId)
    (cd : CardDef) (hc : hand.get? i = some c) (hreg : registryGet reg c = some cd) :
    scanPlaySlots reg corr hand flags (pre ++ i :: rest) cost
      = ((cost.try_spend (if corr && (cd.card_type == CardType.Skill)
            then 0 else cd.cost)).2,
         if (cost.try_spend (if corr && (cd.card_type == CardType.Skill)
            then 0 else cd.cost)).1 then [i] else []) := by
  induction pre with
  | nil =>
      simp only [List.nil_append]
      rw [scanPlaySlots]
      have hcf : card_flag i = some (2 ^ (i + 1)) := by
        unfold card_flag
        simp [hi]
      rw [hcf]
      simp only [land_two_pow_bne, hbit, if_true, hc, hreg]
  | cons p ps ih =>
      simp only [List.cons_append]
      rw [scanPlaySlots]
      cases hcf : card_flag p with
      | none => exact ih (fun j hj => hpre j (by simp [hj]))
      | some flag =>
          have hflag : flag = 2 ^ (p + 1) := by
            unfold card_flag at hcf
            by_cases hp : p < 10
            · simp [hp] at hcf
              exact hcf.symm
            · simp [hp] at hcf
          have hb : (flags &&& flag != 0) = false := by
            rw [hflag, land_two_pow_bne]
            exact hpre p (by simp)
          simp only [hb, Bool.false_eq_true, if_false]
          exact ih (fun j hj => hpre j (by simp [hj]))

/-- C4 counterexample: input word 6 has play bits 1 and 2 both set, both
hand slots hold the registered Strike card (cost 1), yet with current cost
0 zero play actions are honored — refuting "exactly one, never zero". -/
theorem two_bits_zero_plays_counterexample :
    ((apply_local_input_flags 6 [1, 1] (Cost.new 1) false
        [⟨1, 1, .Attack, .Damage 5⟩]).2.plays).length = 0
    ∧ (Nat.testBit 6 1 = true ∧ Nat.testBit 6 2 = true) := by
  exact ⟨by decide, by decide, by decide⟩

/-- C4 (amended): input reconciliation honors at most one play action per
input word; when the lowest-indexed set play bit addresses a slot holding
a registered card, that play is honored exactly when the card's effective
cost is affordable after the draw branch, and no other slot is honored —
the scan stops at the first set bit whether or not the attempt succeeds. -/
theorem at_most_one_play_spec (flags : ℕ) (hand : List CardId) (cost : Cost)
    (corr : Bool) (reg : CardRegistry) (i : ℕ) (c : CardId) (cd : CardDef)
    (hi : i < MAX_HAND_SIZE)
    (hbit : flags.testBit (i + 1) = true)
    (hlow : ∀ j, j < i → flags.testBit (j + 1) = false)
    (hc : hand.get? i = some c) (hreg : registryGet reg c = some cd) :
    (∀ (flags' : ℕ) (hand' : List CardId) (cost' : Cost) (corr' : Bool)
        (reg' : CardRegistry),
      ((apply_local_input_flags flags' hand' cost' corr' reg').2.plays).length ≤ 1)
    ∧ ((apply_local_input_flags flags hand cost corr reg).2.plays
        = if (((if flags &&& INPUT_DRAW != 0 then (cost.try_spend DRAW_COST).2
              else cost)).try_spend
            (if corr && (cd.card_type == CardType.Skill) then 0 else cd.cost)).1
          then [i] else []) := by
  constructor
  · intro flags' hand' cost' corr' reg'
    exact scanPlaySlots_length_le reg' corr' hand' flags' _ _
  · have hdecomp : List.range MAX_HAND_SIZE
        = List.range i ++ i :: ((List.range (MAX_HAND_SIZE - (i + 1))).map
            (fun k => i + 1 + k)) := by
      have h1 : MAX_HAND_SIZE = (i + 1) + (MAX_HAND_SIZE - (i + 1)) := by omega
      rw [h1, List.range_add, List.range_succ]
      simp
    have hfound := scanPlaySlots_found reg corr hand flags (List.range i) i
      ((List.range (MAX_HAND_SIZE - (i + 1))).map (fun k => i + 1 + k))
      (if flags &&& INPUT_DRAW != 0 then (cost.try_spend DRAW_COST).2 else cost)
      (fun j hj => hlow j (List.mem_range.mp hj)) hi hbit c cd hc hreg
    have hplays : (apply_local_input_flags flags hand cost corr reg).2.plays
        = (scanPlaySlots reg corr hand flags (List.range MAX_HAND_SIZE)
            (if flags &&& INPUT_DRAW != 0 then (cost.try_spend DRAW_COST).2
             else cost)).2 := by
      by_cases hdraw : (flags &&& INPUT_DRAW != 0) = true
      · simp [apply_local_input_flags, hdraw]
      · simp [apply_local_input_flags, hdraw]
    rw [hplays, hdecomp, hfound]

theorem at_most_one_play_spec_witness :
    (apply_local_input_flags 6 [1, 1] ⟨5, 1⟩ false
      [⟨1, 1, .Attack, .Damage 5⟩]).2.plays = [0] := by
  have h := at_most_one_play_spec 6 [1, 1] ⟨5, 1⟩ false
    [⟨1, 1, .Attack, .Damage 5⟩] 0 1 ⟨1, 1, .Attack, .Damage 5⟩
    (by decide) (by decide) (fun j hj => absurd hj (by omega)) rfl rfl
  rw [h.2]
  decide

theorem Two.get_set_same (t : Two α) (e : Ent) (v : α) : (t.set e v).get e = v := by
  cases e <;> rfl

theorem Two.get_update_same (t : Two α) (e : Ent) (f : α → α) :
    (t.update e f).get e = f (t.get e) := by
  cases e <;> rfl

/-- C5 counterexample: a Combo of two DoubleStrength children applied to a
player with Strength 1 leaves the player at Strength 3, not 4·1: each child
reads the strength snapshot taken when the card-played event began
resolving, and the gain intents are deferred messages. -/
theorem double_strength_combo_counterexample :
    (apply_status_effects
        (apply_card_effects [⟨126, 1, .Skill, .Combo [.DoubleStrength, .DoubleStrength]⟩]
            ⟨⟨⟨1⟩, ⟨0⟩⟩, ⟨⟨0⟩, ⟨0⟩⟩, ⟨⟨0⟩, ⟨0⟩⟩, ⟨⟨0⟩, ⟨0⟩⟩,
             ⟨none, none⟩, ⟨none, none⟩, ⟨none, none⟩⟩
            [(false, 126)] []
            ⟨⟨Cost.new 1, Cost.new 1⟩, ⟨none, none⟩, [], EffectMsgs.empty⟩).msgs
        ⟨⟨1⟩, ⟨0⟩⟩ ⟨⟨0⟩, ⟨0⟩⟩ ⟨⟨0⟩, ⟨0⟩⟩ ⟨[], []⟩).1.p0.amount = 3
    ∧ (3 : ℚ) ≠ 4 * 1 := by
  constructor
  · have hmsgs : (apply_card_effects
        [⟨126, 1, .Skill, .Combo [.DoubleStrength, .DoubleStrength]⟩]
        ⟨⟨⟨1⟩, ⟨0⟩⟩, ⟨⟨0⟩, ⟨0⟩⟩, ⟨⟨0⟩, ⟨0⟩⟩, ⟨⟨0⟩, ⟨0⟩⟩,
         ⟨none, none⟩, ⟨none, none⟩, ⟨none, none⟩⟩
        [(false, 126)] []
        ⟨⟨Cost.new 1, Cost.new 1⟩, ⟨none, none⟩, [], EffectMsgs.empty⟩).msgs
        = ⟨[], [], [], [], [], [(false, 1), (false, 1)], [], [], []⟩ := rfl
    rw [hmsgs]
    simp only [apply_status_effects, List.foldl_cons, List.foldl_nil]
    rw [show ((false : Ent) : Bool) = false from rfl]
    norm_num [Two.update, Two.get, Two.set, Strength.gain]
  · norm_num

/-- C5 (amended): within a Combo, each DoubleStrength child emits a gain
intent equal to the strength snapshot captured when the card-played event
began resolution, and each DoubleBlock child reads the live Block
component, which no emitted intent mutates during resolution (gains are
deferred messages applied by later systems); hence a Combo with
DoubleStrength twice leaves a player of strength s at 3·s (additive), not
4·s, and likewise two DoubleBlocks leave block b at 3·b. -/
theorem double_strength_snapshot_spec (s : ℚ) (st0 : EffState) (player : Ent)
    (opp : Option Ent) (blocks : Two Block) (weaks : Two Weak)
    (vulns : Two Vulnerable) (strengths : Two Strength) (vulns2 : Two Vulnerable)
    (weaks2 : Two Weak) (discards : Two (List CardId))
    (hs : (strengths.get player).amount = s) :
    (apply_card_effect player opp s blocks weaks vulns
        (.Combo [.DoubleStrength, .DoubleStrength]) st0).msgs.strength
      = st0.msgs.strength ++ [(player, s), (player, s)]
    ∧ (apply_card_effect player opp s blocks weaks vulns
        (.Combo [.DoubleBlock, .DoubleBlock]) st0).msgs.block
      = st0.msgs.block ++ [(player, (blocks.get player).current),
                           (player, (blocks.get player).current)]
    ∧ ((apply_status_effects ⟨[], [], [], [], [], [(player, s), (player, s)], [], [], []⟩
        strengths vulns2 weaks2 discards).1.get player).amount = 3 * s
    ∧ (∀ (b0 : Block), 0 ≤ b0.current → 0 ≤ (blocks.get player).current →
        ((b0.gain (blocks.get player).current).gain (blocks.get player).current).current
          = b0.current + 2 * (blocks.get player).current) := by
  refine ⟨?_, ?_, ?_, ?_⟩
  · simp [apply_card_effect, apply_card_effect_list, EffState.withMsgs,
      EffectMsgs.addStrength]
  · simp [apply_card_effect, apply_card_effect_list, EffState.withMsgs,
      EffectMsgs.addBlock]
  · simp only [apply_status_effects, List.foldl_cons, List.foldl_nil]
    rw [Two.get_update_same, Two.get_update_same]
    simp only [Strength.gain]
    rw [hs]
    ring
  · intro b0 hb0 hc
    simp only [Block.gain]
    have h1 : Max.max (b0.current + (blocks.get player).current) 0
        = b0.current + (blocks.get player).current := max_eq_left (by linarith)
    rw [h1, max_eq_left (by linarith)]
    ring

theorem double_strength_snapshot_spec_witness :
    ((apply_status_effects ⟨[], [], [], [], [], [(false, 1), (false, 1)], [], [], []⟩
        ⟨⟨1⟩, ⟨0⟩⟩ ⟨⟨0⟩, ⟨0⟩⟩ ⟨⟨0⟩, ⟨0⟩⟩ ⟨[], []⟩).1.get false).amount = 3 * 1 :=
  (double_strength_snapshot_spec 1 ⟨⟨Cost.new 1, Cost.new 1⟩, ⟨none, none⟩, [],
      EffectMsgs.empty⟩ false (some true) ⟨⟨0⟩, ⟨0⟩⟩ ⟨⟨0⟩, ⟨0⟩⟩ ⟨⟨0⟩, ⟨0⟩⟩
      ⟨⟨1⟩, ⟨0⟩⟩ ⟨⟨0⟩, ⟨0⟩⟩ ⟨⟨0⟩, ⟨0⟩⟩ ⟨[], []⟩ rfl).2.2.1

/-- Multiset union of the three card piles of one player. -/
def pileMultiset (deck : Deck) (hand discard : List CardId) : Multiset CardId :=
  ↑deck.cards + ↑hand + ↑discard

theorem coe_eraseIdx_add (l : List CardId) (i : ℕ) (c : CardId)
    (hc : l.get? i = some c) :
    (↑(l.eraseIdx i) : Multiset CardId) + {c} = ↑l := by
  induction l generalizing i with
  | nil => simp at hc
  | cons a t ih =>
      cases i with
      | zero =>
          simp only [List.get?] at hc
          cases hc
          simp only [List.eraseIdx, ← Multiset.cons_coe]
          rw [add_comm, Multiset.singleton_add]
      | succ n =>
          simp only [List.get?] at hc
          have := ih n hc
          simp only [List.eraseIdx, ← Multiset.cons_coe, Multiset.cons_add]
          rw [this]

theorem handle_draw_cards_loop_conserves (reg : CardRegistry) (player : Ent)
    (eb : ℕ) (fd : ℚ) (ft : Option Ent) :
    ∀ (fuel n : ℕ) (st : DrawState) (ev : DrawEvents),
      pileMultiset (handle_draw_cards_loop reg player eb fd ft fuel n st ev).1.deck
          (handle_draw_cards_loop reg player eb fd ft fuel n st ev).1.hand
          (handle_draw_cards_loop reg player eb fd ft fuel n st ev).1.discard
        = pileMultiset st.deck st.hand st.discard := by
  intro fuel
  induction fuel with
  | zero =>
      intro n st ev
      cases n <;> rfl
  | succ f ih =>
      intro n st ev
      cases n with
      | zero => rfl
      | succ m =>
          by_cases hguard : MAX_HAND_SIZE ≤ st.hand.length
          · simp only [handle_draw_cards_loop, if_pos hguard]
          · simp only [handle_draw_cards_loop, if_neg hguard]
            set deck1 := (if st.deck.cards.isEmpty && !st.discard.isEmpty
              then (st.deck.add_cards st.discard).shuffle else st.deck) with hd1
            set discard1 := (if st.deck.cards.isEmpty && !st.discard.isEmpty
              then ([] : List CardId) else st.discard) with hds1
            have hkey : (↑deck1.cards : Multiset CardId) + ↑discard1
                = ↑st.deck.cards + ↑st.discard := by
              rw [hd1, hds1]
              by_cases hrec : (st.deck.cards.isEmpty && !st.discard.isEmpty) = true
              · rw [if_pos hrec, if_pos hrec, Deck.shuffle_coe]
                simp only [Deck.add_cards, ← Multiset.coe_add]
                simp
              · rw [if_neg hrec, if_neg hrec]
            split
            · simp only [pileMultiset]
              rw [add_right_comm, hkey, add_right_comm]
            · rename_i c deck2 hdraw
              rw [ih]
              simp only [pileMultiset]
              have hdc : (↑deck2.cards : Multiset CardId) + {c} = ↑deck1.cards :=
                Deck.draw_coe deck1 c deck2 hdraw
              calc (↑deck2.cards : Multiset CardId) + ↑(st.hand ++ [c]) + ↑discard1
                  = (↑deck2.cards + {c}) + ↑st.hand + ↑discard1 := by
                    rw [← Multiset.coe_add, ← Multiset.coe_singleton c]
                    abel
                _ = ↑deck1.cards + ↑st.hand + ↑discard1 := by rw [hdc]
                _ = (↑deck1.cards + ↑discard1) + ↑st.hand := by abel
                _ = (↑st.deck.cards + ↑st.discard) + ↑st.hand := by rw [hkey]
                _ = ↑st.deck.cards + ↑st.hand + ↑st.discard := by abel

/-- Wrapper form of the draw conservation: one `DrawCardsMessage` never
creates or destroys cards, it only relocates them between the piles. -/
theorem handle_draw_cards_conserves (reg : CardRegistry) (player : Ent)
    (evolve : Option EvolveEffect) (fire : Option FireBreathingEffect)
    (st : DrawState) (n : ℕ) :
    pileMultiset (handle_draw_cards reg player evolve fire st n).1.deck
        (handle_draw_cards reg player evolve fire st n).1.hand
        (handle_draw_cards reg player evolve fire st n).1.discard
      = pileMultiset st.deck st.hand st.discard := by
  unfold handle_draw_cards
  exact handle_draw_cards_loop_conserves reg player _ _ _ _ n st ⟨[], []⟩

/-- Classification of the cards that `handle_play_card` removes from the
deck∪hand∪discard rotation: Power-type cards, explicit `Exhaust`-effect
cards, and Skill-type cards played under an active Corruption power. -/
def playRemovesCard (reg : CardRegistry) (corr : Bool) (c : CardId) : Bool :=
  match registryGet reg c with
  | none => false
  | some cd => cd.card_type == CardType.Power || cd.effect.isExhaust
      || (cd.card_type == CardType.Skill && corr)

theorem handle_play_card_piles (reg : CardRegistry) (corr : Bool)
    (hand : List CardId) (deck : Deck) (discard : List CardId) (i : ℕ)
    (c : CardId) (hc : hand.get? i = some c) :
    pileMultiset (handle_play_card reg corr ⟨hand, deck⟩ i).1.deck
        (handle_play_card reg corr ⟨hand, deck⟩ i).1.hand discard
      + (if playRemovesCard reg corr c then {c} else 0)
      = pileMultiset deck hand discard := by
  have hmul : (↑(hand.eraseIdx i) : Multiset CardId) + {c} = ↑hand :=
    coe_eraseIdx_add hand i c hc
  cases hreg : registryGet reg c with
  | none =>
      simp only [handle_play_card, hc, hreg, playRemovesCard, if_true,
        Bool.false_eq_true, if_false, pileMultiset, Deck.add_cards]
      rw [← hmul]
      try rw [← Multiset.coe_add, Multiset.coe_singleton]
      abel
  | some cd =>
      cases hP : (cd.card_type == CardType.Power) <;>
        cases hE : cd.effect.isExhaust <;>
        cases hS : (cd.card_type == CardType.Skill && corr) <;>
        · simp only [handle_play_card, hc, hreg, hP, hE, hS, playRemovesCard,
            Bool.false_or, Bool.or_false, Bool.true_or, Bool.or_true,
            Bool.false_eq_true, Bool.true_eq_false, if_true, if_false,
            pileMultiset, Deck.add_cards, add_zero]
          rw [← hmul]
          try rw [← Multiset.coe_add, Multiset.coe_singleton]
          abel

/-- C2 counterexample: playing the Power card Barricade (whose effect is
not `Exhaust`, with no `AddStatus` involved) removes it permanently from
the deck∪hand∪discard multiset: before the play the piles hold exactly
card 208, afterwards they are all empty and only a card-played event (no
exhaust event) was emitted. -/
theorem power_card_leaves_multiset_counterexample :
    (handle_play_card [⟨208, 3, .Power, .Barricade⟩] false
        ⟨[208], ⟨[], 5⟩⟩ 0).1.hand = []
    ∧ (handle_play_card [⟨208, 3, .Power, .Barricade⟩] false
        ⟨[208], ⟨[], 5⟩⟩ 0).1.deck.cards = []
    ∧ (handle_play_card [⟨208, 3, .Power, .Barricade⟩] false
        ⟨[208], ⟨[], 5⟩⟩ 0).2.exhausted = []
    ∧ CardEffect.isExhaust .Barricade = false
    ∧ pileMultiset ⟨[], 5⟩ [208] [] ≠ pileMultiset ⟨[], 5⟩ [] [] := by
  refine ⟨rfl, rfl, rfl, rfl, ?_⟩
  simp [pileMultiset]

/-- C2 (amended): the multiset union of a player's Deck, Hand and
DiscardPile is conserved by drawing (including recycling and reshuffling);
playing a card out of range is a no-op; playing a card conserves the
multiset except that the played card leaves it permanently when it is a
Power-type card, a card whose effect is explicit `Exhaust`, or a
Skill-type card played under an active Corruption power; and an
`AddStatus` effect adds exactly its one card to the discard pile. -/
theorem pile_conservation_spec (reg : CardRegistry) (player : Ent)
    (evolve : Option EvolveEffect) (fire : Option FireBreathingEffect)
    (st : DrawState) (n : ℕ) (corr : Bool) (hand : List CardId) (deck : Deck)
    (discard : List CardId) (i : ℕ) :
    (pileMultiset (handle_draw_cards reg player evolve fire st n).1.deck
        (handle_draw_cards reg player evolve fire st n).1.hand
        (handle_draw_cards reg player evolve fire st n).1.discard
      = pileMultiset st.deck st.hand st.discard)
    ∧ (hand.get? i = none →
      (handle_play_card reg corr ⟨hand, deck⟩ i).1 = ⟨hand, deck⟩)
    ∧ (∀ c, hand.get? i = some c →
      pileMultiset (handle_play_card reg corr ⟨hand, deck⟩ i).1.deck
          (handle_play_card reg corr ⟨hand, deck⟩ i).1.hand discard
        + (if playRemovesCard reg corr c then {c} else 0)
      = pileMultiset deck hand discard)
    ∧ (∀ (strengths : Two Strength) (vulns : Two Vulnerable) (weaks : Two Weak)
        (discards : Two (List CardId)) (e : Ent) (cid : CardId),
        ((apply_status_effects ⟨[], [], [], [], [], [], [], [], [(e, cid)]⟩
            strengths vulns weaks discards).2.2.2).get e
          = discards.get e ++ [cid]) := by
  refine ⟨handle_draw_cards_conserves reg player evolve fire st n, ?_, ?_, ?_⟩
  · intro hnone
    simp only [handle_play_card, hnone]
  · intro c hc
    exact handle_play_card_piles reg corr hand deck discard i c hc
  · intro strengths vulns weaks discards e cid
    simp only [apply_status_effects, List.foldl_cons, List.foldl_nil]
    rw [Two.get_update_same]

theorem pile_conservation_spec_witness :
    pileMultiset (handle_play_card [⟨1, 1, .Attack, .Damage 5⟩] false
        ⟨[1], ⟨[], 5⟩⟩ 0).1.deck
      (handle_play_card [⟨1, 1, .Attack, .Damage 5⟩] false
        ⟨[1], ⟨[], 5⟩⟩ 0).1.hand []
      + (if playRemovesCard [⟨1, 1, .Attack, .Damage 5⟩] false 1 then {1} else 0)
      = pileMultiset ⟨[], 5⟩ [1] [] :=
  (pile_conservation_spec [⟨1, 1, .Attack, .Damage 5⟩] false none none
    ⟨⟨[], 5⟩, [], []⟩ 0 false [1] ⟨[], 5⟩ [] 0).2.2.1 1 rfl

theorem Deck.draw_none_length (d : Deck) (h : d.draw = none) :
    d.cards.length = 0 := by
  unfold Deck.draw at h
  by_cases he : d.cards.isEmpty
  · rw [List.isEmpty_iff] at he
    simp [he]
  · simp [he] at h

theorem Deck.draw_some_pos (d : Deck) (c : CardId) (d' : Deck)
    (h : d.draw = some (c, d')) : 0 < d.cards.length := by
  unfold Deck.draw at h
  by_cases he : d.cards.isEmpty
  · simp [he] at h
  · refine List.length_pos.mpr ?_
    intro hnil
    rw [hnil] at he
    simp at he

/-- Behaviour of the draw loop when the discard pile is empty and the
Evolve bonus is zero: no reshuffle is emitted, the discard stays empty,
exactly min(n, |deck|, ceiling − |hand|) cards are appended to the hand,
and they come out of the deck (stated as a multiset identity). -/
theorem draw_loop_no_discard (reg : CardRegistry) (player : Ent) (fd : ℚ)
    (ft : Option Ent) :
    ∀ (fuel n : ℕ) (st : DrawState) (ev : DrawEvents),
      st.discard = [] →
      MAX_HAND_SIZE < st.hand.length + fuel →
      ((handle_draw_cards_loop reg player 0 fd ft fuel n st ev).2.reshuffles
          = ev.reshuffles)
      ∧ ((handle_draw_cards_loop reg player 0 fd ft fuel n st ev).1.discard = [])
      ∧ ((handle_draw_cards_loop reg player 0 fd ft fuel n st ev).1.hand.length
          = st.hand.length + Min.min n (Min.min st.deck.cards.length
              (MAX_HAND_SIZE - st.hand.length)))
      ∧ ((handle_draw_cards_loop reg player 0 fd ft fuel n st ev).1.hand.take
            st.hand.length = st.hand)
      ∧ ((↑(handle_draw_cards_loop reg player 0 fd ft fuel n st ev).1.deck.cards
            : Multiset CardId)
          + ↑((handle_draw_cards_loop reg player 0 fd ft fuel n st ev).1.hand.drop
              st.hand.length)
          = ↑st.deck.cards) := by
  intro fuel
  induction fuel with
  | zero =>
      intro n st ev hdisc hlen
      cases n with
      | zero =>
          refine ⟨?_, ?_, ?_, ?_, ?_⟩ <;> simp only [handle_draw_cards_loop]
          · exact hdisc
          · simp
          · simp
          · simp
      | succ m =>
          refine ⟨?_, ?_, ?_, ?_, ?_⟩ <;> simp only [handle_draw_cards_loop]
          · exact hdisc
          · omega
          · simp
          · simp
  | succ f ih =>
      intro n st ev hdisc hlen
      cases n with
      | zero =>
          refine ⟨?_, ?_, ?_, ?_, ?_⟩ <;> simp only [handle_draw_cards_loop]
          · exact hdisc
          · simp
          · simp
          · simp
      | succ m =>
          by_cases hguard : MAX_HAND_SIZE ≤ st.hand.length
          · refine ⟨?_, ?_, ?_, ?_, ?_⟩ <;>
              simp only [handle_draw_cards_loop, if_pos hguard]
            · exact hdisc
            · omega
            · simp
            · simp
          · have hrec : (st.deck.cards.isEmpty && !st.discard.isEmpty) = false := by
              rw [hdisc]
              simp
            simp only [handle_draw_cards_loop, if_neg hguard, hrec,
              Bool.false_eq_true, if_false]
            cases hdraw : st.deck.draw with
            | none =>
                have hdlen : st.deck.cards.length = 0 :=
                  Deck.draw_none_length st.deck hdraw
                refine ⟨rfl, hdisc, ?_, by simp, by simp⟩
                simp only [hdlen]
                omega
                
            | some cd2 =>
                obtain ⟨c, deck2⟩ := cd2
                have hdpos : 0 < st.deck.cards.length :=
                  Deck.draw_some_pos st.deck c deck2 hdraw
                have hd2len : deck2.cards.length = st.deck.cards.length - 1 :=
                  Deck.draw_length st.deck c deck2 hdraw
                have hdc : (↑deck2.cards : Multiset CardId) + {c} = ↑st.deck.cards :=
                  Deck.draw_coe st.deck c deck2 hdraw
                simp only [show (decide (0 < (0 : ℕ))) = false from rfl,
                  Bool.and_false, Bool.false_eq_true, if_false]
                obtain ⟨h1, h2, h3, h4, h5⟩ :=
                  ih m ⟨deck2, st.hand ++ [c], st.discard⟩ _ hdisc (by simp; omega)
                simp only [List.length_append, List.length_cons,
                  List.length_nil] at h3 h4 h5
                refine ⟨?_, h2, ?_, ?_, ?_⟩
                · rw [h1, statusHookEvents_reshuffles]
                · rw [h3, hd2len]
                  omega
                · have hsplit := List.take_append_drop (st.hand.length + 1)
                    (handle_draw_cards_loop reg player 0 fd ft f m
                      ⟨deck2, st.hand ++ [c], st.discard⟩
                      (statusHookEvents (match registryGet reg c with
                        | some cd => cd.card_type == CardType.Status
                        | none => false) fd ft player ev)).1.hand
                  rw [h4] at hsplit
                  conv_lhs => rw [← hsplit]
                  rw [List.append_assoc, List.take_left]
                · have hsplit := List.take_append_drop (st.hand.length + 1)
                    (handle_draw_cards_loop reg player 0 fd ft f m
                      ⟨deck2, st.hand ++ [c], st.discard⟩
                      (statusHookEvents (match registryGet reg c with
                        | some cd => cd.card_type == CardType.Status
                        | none => false) fd ft player ev)).1.hand
                  rw [h4] at hsplit
                  have hdropc : (handle_draw_cards_loop reg player 0 fd ft f m
                      ⟨deck2, st.hand ++ [c], st.discard⟩
                      (statusHookEvents (match registryGet reg c with
                        | some cd => cd.card_type == CardType.Status
                        | none => false) fd ft player ev)).1.hand.drop st.hand.length
                      = c :: (handle_draw_cards_loop reg player 0 fd ft f m
                      ⟨deck2, st.hand ++ [c], st.discard⟩
                      (statusHookEvents (match registryGet reg c with
                        | some cd => cd.card_type == CardType.Status
                        | none => false) fd ft player ev)).1.hand.drop
                        (st.hand.length + 1) := by
                    conv_lhs => rw [← hsplit]
                    rw [List.append_assoc, List.drop_left]
                    rfl
                  rw [hdropc, ← Multiset.cons_coe]
                  calc (↑(handle_draw_cards_loop reg player 0 fd ft f m
                        ⟨deck2, st.hand ++ [c], st.discard⟩
                        (statusHookEvents (match registryGet reg c with
                          | some cd => cd.card_type == CardType.Status
                          | none => false) fd ft player ev)).1.deck.cards
                        : Multiset CardId)
                      + (c ::ₘ ↑((handle_draw_cards_loop reg player 0 fd ft f m
                          ⟨deck2, st.hand ++ [c], st.discard⟩
                          (statusHookEvents (match registryGet reg c with
                            | some cd => cd.card_type == CardType.Status
                            | none => false) fd ft player ev)).1.hand.drop
                            (st.hand.length + 1)))
                      = ((↑(handle_draw_cards_loop reg player 0 fd ft f m
                          ⟨deck2, st.hand ++ [c], st.discard⟩
                          (statusHookEvents (match registryGet reg c with
                            | some cd => cd.card_type == CardType.Status
                            | none => false) fd ft player ev)).1.deck.cards
                            : Multiset CardId)
                        + ↑((handle_draw_cards_loop reg player 0 fd ft f m
                          ⟨deck2, st.hand ++ [c], st.discard⟩
                          (statusHookEvents (match registryGet reg c with
                            | some cd => cd.card_type == CardType.Status
                            | none => false) fd ft player ev)).1.hand.drop
                            (st.hand.length + 1))) + {c} := by
                        rw [← Multiset.singleton_add]
                        abel
                    _ = ↑deck2.cards + {c} := by rw [h5]
                    _ = ↑st.deck.cards := hdc

/-- A list whose first `|hand| + 1` elements are `hand ++ [c]` has `hand`
as its first `|hand|` elements and `c` at position `|hand|`. -/
theorem take_drop_extend {L hand : List CardId} {c : CardId}
    (h : L.take (hand.length + 1) = hand ++ [c]) :
    L.take hand.length = hand
    ∧ L.drop hand.length = c :: L.drop (hand.length + 1) := by
  have hsplit := List.take_append_drop (hand.length + 1) L
  rw [h] at hsplit
  constructor
  · conv_lhs => rw [← hsplit]
    rw [List.append_assoc, List.take_left]
  · conv_lhs => rw [← hsplit]
    rw [List.append_assoc, List.drop_left]
    rfl

theorem cons_add_of_add_eq {A B : List CardId} {c : CardId}
    {S T : Multiset CardId}
    (h1 : (↑A : Multiset CardId) + ↑B = S) (h2 : S + {c} = T) :
    (↑A : Multiset CardId) + (c ::ₘ ↑B) = T := by
  rw [← h2, ← h1, ← Multiset.singleton_add]
  abel

/-- First iteration of the draw loop when the deck is empty and the
discard pile is not: the discard is recycled into a shuffled deck, one
reshuffle notification is emitted, and the loop continues on the recycled
deck with an empty discard pile (zero Evolve bonus). -/
theorem draw_loop_recycle (reg : CardRegistry) (player : Ent) (fd : ℚ)
    (ft : Option Ent) (fuel n : ℕ) (st : DrawState) (ev : DrawEvents)
    (hdeck : st.deck.cards = []) (hdne : st.discard ≠ [])
    (hhand : st.hand.length < MAX_HAND_SIZE)
    (hfuel : MAX_HAND_SIZE < st.hand.length + fuel) (hn : 0 < n) :
    ((handle_draw_cards_loop reg player 0 fd ft fuel n st ev).2.reshuffles
        = ev.reshuffles ++ [((st.deck.add_cards st.discard).shuffle).cards])
    ∧ ((handle_draw_cards_loop reg player 0 fd ft fuel n st ev).1.discard = [])
    ∧ ((handle_draw_cards_loop reg player 0 fd ft fuel n st ev).1.hand.length
        = st.hand.length + Min.min n (Min.min st.discard.length
            (MAX_HAND_SIZE - st.hand.length)))
    ∧ ((handle_draw_cards_loop reg player 0 fd ft fuel n st ev).1.hand.take
          st.hand.length = st.hand)
    ∧ ((↑(handle_draw_cards_loop reg player 0 fd ft fuel n st ev).1.deck.cards
          : Multiset CardId)
        + ↑((handle_draw_cards_loop reg player 0 fd ft fuel n st ev).1.hand.drop
            st.hand.length)
        = ↑st.discard) := by
  have hguard : ¬ MAX_HAND_SIZE ≤ st.hand.length := by omega
  have hrec : (st.deck.cards.isEmpty && !st.discard.isEmpty) = true := by
    rw [hdeck]
    cases hd : st.discard with
    | nil => exact absurd hd hdne
    | cons a l => rfl
  have hklen : ((st.deck.add_cards st.discard).shuffle).cards.length
      = st.discard.length := by
    have hco := congrArg Multiset.card
      (Deck.shuffle_coe (st.deck.add_cards st.discard))
    simpa [Deck.add_cards, hdeck] using hco
  have hTco : (↑((st.deck.add_cards st.discard).shuffle).cards
      : Multiset CardId) = ↑st.discard := by
    rw [Deck.shuffle_coe]
    simp [Deck.add_cards, hdeck]
  cases fuel with
  | zero => omega
  | succ f =>
      cases n with
      | zero => omega
      | succ m =>
          simp only [handle_draw_cards_loop, if_neg hguard, hrec,
            eq_self_iff_true, if_true]
          cases hdraw : ((st.deck.add_cards st.discard).shuffle).draw with
          | none =>
              exfalso
              have h0 := Deck.draw_none_length _ hdraw
              rw [hklen] at h0
              exact hdne (List.length_eq_zero.mp h0)
          | some cd2 =>
              obtain ⟨c, deck2⟩ := cd2
              have hdpos : 0 < ((st.deck.add_cards st.discard).shuffle).cards.length :=
                Deck.draw_some_pos _ c deck2 hdraw
              have hd2len : deck2.cards.length
                  = ((st.deck.add_cards st.discard).shuffle).cards.length - 1 :=
                Deck.draw_length _ c deck2 hdraw
              have hdc : (↑deck2.cards : Multiset CardId) + {c}
                  = ↑((st.deck.add_cards st.discard).shuffle).cards :=
                Deck.draw_coe _ c deck2 hdraw
              simp only [hdraw, show (decide (0 < (0 : ℕ))) = false from rfl,
                Bool.and_false, Bool.false_eq_true, if_false]
              obtain ⟨h1, h2, h3, h4, h5⟩ :=
                draw_loop_no_discard reg player fd ft f m
                  ⟨deck2, st.hand ++ [c], []⟩ _ rfl (by simp; omega)
              simp only [List.length_append, List.length_cons,
                List.length_nil] at h3 h4 h5
              refine ⟨?_, h2, ?_, ?_, ?_⟩
              · rw [h1, statusHookEvents_reshuffles]
              · rw [h3, hd2len, hklen]
                omega
              · exact ((take_drop_extend h4).1)
              · rw [(take_drop_extend h4).2, ← Multiset.cons_coe]
                exact cons_add_of_add_eq h5 (by rw [hdc, hTco])

/-- The card-count formula of the draw-under-empty-deck claim fails when
the drawing player holds the Evolve power: with an empty deck, three
Status cards in the discard pile, an empty hand and Evolve 1, a draw-1
request recycles the discard (one reshuffle) but puts 3 cards in the
hand, not min(1, 3, ceiling) = 1, because each drawn Status card grants
an extra draw inside the loop. -/
theorem evolve_draw_count_counterexample :
    ((handle_draw_cards [⟨300, 1, CardType.Status, CardEffect.Exhaust⟩] false
        (some ⟨1⟩) none ⟨⟨[], 7⟩, [], [300, 300, 300]⟩ 1).1.hand.length = 3)
    ∧ ((handle_draw_cards [⟨300, 1, CardType.Status, CardEffect.Exhaust⟩] false
        (some ⟨1⟩) none ⟨⟨[], 7⟩, [], [300, 300, 300]⟩ 1).2.reshuffles.length
        = 1)
    ∧ ¬((handle_draw_cards [⟨300, 1, CardType.Status, CardEffect.Exhaust⟩]
        false (some ⟨1⟩) none ⟨⟨[], 7⟩, [], [300, 300, 300]⟩ 1).1.hand.length
        = Min.min 1 (Min.min 3 MAX_HAND_SIZE)) := by
  refine ⟨?_, ?_, ?_⟩ <;> decide

/-- C7 (amended): for a draw-n request (n ≥ 1) on an empty deck with the
hand below the hand-size ceiling and no Evolve power (with Evolve the
card-count formula fails, see `evolve_draw_count_counterexample`): if the
discard pile holds k ≥ 1 cards, exactly one deck-reshuffled notification
is emitted carrying the shuffled recycled deck, the discard pile ends
empty, exactly min(n, k, ceiling − |hand|) cards are appended to the hand
with the previous hand preserved as a prefix, and the k recycled cards
are split exactly between the new deck and the newly drawn cards (stated
as a multiset identity); if the discard pile is also empty, the draw is a
no-op emitting no events. -/
theorem draw_under_empty_deck (reg : CardRegistry) (player : Ent)
    (fire : Option FireBreathingEffect) (st : DrawState) (n : ℕ)
    (hdeck : st.deck.cards = []) (hhand : st.hand.length < MAX_HAND_SIZE)
    (hn : 0 < n) :
    (st.discard ≠ [] →
      ((handle_draw_cards reg player none fire st n).2.reshuffles
          = [((st.deck.add_cards st.discard).shuffle).cards])
      ∧ ((handle_draw_cards reg player none fire st n).1.discard = [])
      ∧ ((handle_draw_cards reg player none fire st n).1.hand.length
          = st.hand.length + Min.min n (Min.min st.discard.length
              (MAX_HAND_SIZE - st.hand.length)))
      ∧ ((handle_draw_cards reg player none fire st n).1.hand.take
            st.hand.length = st.hand)
      ∧ ((↑(handle_draw_cards reg player none fire st n).1.deck.cards
            : Multiset CardId)
          + ↑((handle_draw_cards reg player none fire st n).1.hand.drop
              st.hand.length)
          = ↑st.discard))
    ∧ (st.discard = [] →
        handle_draw_cards reg player none fire st n = (st, ⟨[], []⟩)) := by
  constructor
  · intro hdne
    exact draw_loop_recycle reg player _ _
      (MAX_HAND_SIZE + 1 - st.hand.length) n st ⟨[], []⟩ hdeck hdne hhand
      (by omega) hn
  · intro hde
    obtain ⟨f, hf⟩ : ∃ f, MAX_HAND_SIZE + 1 - st.hand.length = f + 1 :=
      ⟨MAX_HAND_SIZE - st.hand.length, by omega⟩
    obtain ⟨m, hm⟩ : ∃ m, n = m + 1 := ⟨n - 1, by omega⟩
    have hguard : ¬ MAX_HAND_SIZE ≤ st.hand.length := by omega
    have hrecF : (st.deck.cards.isEmpty && !st.discard.isEmpty) = false := by
      rw [hde]
      simp
    have hdrawn : st.deck.draw = none := by
      unfold Deck.draw
      rw [hdeck]
      rfl
    simp only [handle_draw_cards, hf, hm, handle_draw_cards_loop,
      if_neg hguard, hrecF, Bool.false_eq_true, if_false, hdrawn]

theorem draw_under_empty_deck_witness :
    (0 : ℕ) < 3
    ∧ (([1, 2, 3] : List CardId) ≠ [] →
      ((handle_draw_cards [] false none none
          ⟨⟨[], 5⟩, [], [1, 2, 3]⟩ 3).2.reshuffles
          = [(((⟨[], 5⟩ : Deck).add_cards [1, 2, 3]).shuffle).cards])
      ∧ ((handle_draw_cards [] false none none
          ⟨⟨[], 5⟩, [], [1, 2, 3]⟩ 3).1.discard = [])
      ∧ ((handle_draw_cards [] false none none
          ⟨⟨[], 5⟩, [], [1, 2, 3]⟩ 3).1.hand.length
          = 0 + Min.min 3 (Min.min 3 (MAX_HAND_SIZE - 0)))
      ∧ ((handle_draw_cards [] false none none
          ⟨⟨[], 5⟩, [], [1, 2, 3]⟩ 3).1.hand.take 0 = [])
      ∧ ((↑(handle_draw_cards [] false none none
            ⟨⟨[], 5⟩, [], [1, 2, 3]⟩ 3).1.deck.cards : Multiset CardId)
          + ↑((handle_draw_cards [] false none none
            ⟨⟨[], 5⟩, [], [1, 2, 3]⟩ 3).1.hand.drop 0)
          = ↑([1, 2, 3] : List CardId)))
    ∧ (([1, 2, 3] : List CardId) = [] →
        handle_draw_cards [] false none none ⟨⟨[], 5⟩, [], [1, 2, 3]⟩ 3
          = (⟨⟨[], 5⟩, [], [1, 2, 3]⟩, ⟨[], []⟩)) :=
  ⟨by decide,
    (draw_under_empty_deck [] false none ⟨⟨[], 5⟩, [], [1, 2, 3]⟩ 3 rfl
      (by decide) (by decide)).1,
    (draw_under_empty_deck [] false none ⟨⟨[], 5⟩, [], [1, 2, 3]⟩ 3 rfl
      (by decide) (by decide)).2⟩

/-- A baseline player fixture used to exercise the pipeline. -/
def demoPlayer : PlayerState :=
  ⟨⟨INITIAL_HP, INITIAL_HP⟩, ⟨0⟩, ⟨0⟩, ⟨0, 1⟩, none, ⟨0⟩, ⟨0⟩, ⟨0⟩,
   none, none, none, false, none, none, none, none, none, none, false,
   none, none, ⟨[1, 1, 6], DEFAULT_DECK_SEED⟩, [], []⟩

def demoRegistry : CardRegistry :=
  [⟨1, 1, CardType.Attack, CardEffect.Damage 6⟩]

def demoState : GameState := ⟨⟨demoPlayer, demoPlayer⟩, .Playing, [], []⟩

def demoInputs : List TickInput := [⟨1 / 10, ⟨1, 0⟩⟩, ⟨1 / 10, ⟨0, 2⟩⟩]

/-- C1: the gameplay pipeline (tick timers, input reconciliation,
deck/hand mutation, effect resolution, status/power ticking, health
resolution) is deterministic: two independent runs over equal card
registries from equal initial match states on equal ordered
(delta-time, input-flag-word) sequences produce equal `GameState`s —
health, cost, hand, deck, discard and every status/power component of
both players — after every tick, i.e. after every prefix of the input
sequence. -/
theorem pipeline_deterministic (reg1 reg2 : CardRegistry)
    (s1 s2 : GameState) (ins1 ins2 : List TickInput)
    (hreg : reg1 = reg2) (hs : s1 = s2) (hins : ins1 = ins2) :
    ∀ k : ℕ, runTicks reg1 s1 (ins1.take k)
      = runTicks reg2 s2 (ins2.take k) := by
  subst hreg hs hins
  intro k
  rfl

theorem pipeline_deterministic_witness :
    demoRegistry = demoRegistry ∧ demoState = demoState
    ∧ demoInputs = demoInputs
    ∧ runTicks demoRegistry demoState (demoInputs.take 2)
      = runTicks demoRegistry demoState (demoInputs.take 2) :=
  ⟨rfl, rfl, rfl,
    pipeline_deterministic demoRegistry demoRegistry demoState demoState
      demoInputs demoInputs rfl rfl rfl 2⟩

end Sensen